import Mathlib

/-!
# Verification of the CocosBaseProject entity/component subsystem

Shallow embedding of the ECS registry of the repository:

* `TM`   — `TagManager` (a `Set<string>` of tags per entity);
* `CompClass`, `Comp` — component constructors and `IEntityComponent`
  instances; field stores model JS own-properties as partial maps
  `String → Option Int`, and `Object.assign` as function override;
* `CM`   — `ComponentManager` (per-entity map from class name to instance),
  with lifecycle hooks recorded as an event trace (`Ev`): the code calls a
  hook only when the component's class defines it (`component.onAttach?.()`);
* `EMState`, `Op`, `step` — `EntityManager` (entity map, the two reverse
  indexes, monotone id counter) together with the `Entity`-level operations
  that keep the indexes in sync, as a state-transition system;
* `EntityQuery` — the query builder's `execute` filter pipeline.

Scene-graph nodes, prefab pools and archetypes are engine collaborators and
carry no state observed by the properties below, so they are omitted; entity
object references are represented by the (unique, never-reused) entity ids.
-/

/-- Tag store of one `TagManager`: a JS `Set<string>`, i.e. an
insertion-ordered list without duplicates. -/
abbrev TM := List String

namespace TM

/-- `TagManager.add(tag)`: returns `true` iff the tag was newly added
(`if (this.tags.has(tag)) return false; this.tags.add(tag); return true`). -/
def add (tm : TM) (t : String) : Bool × TM :=
  if t ∈ tm then (false, tm) else (true, tm ++ [t])

/-- `TagManager.remove(tag)`: `Set.delete` removes the tag (a JS set holds
each element at most once, so deletion is a filter) and reports whether it
was present. -/
def remove (tm : TM) (t : String) : Bool × TM :=
  if t ∈ tm then (true, tm.filter (fun u => u ≠ t)) else (false, tm)

/-- `TagManager.addMultiple(...tags)`: `Set.add` for each tag in order. -/
def addMultiple (tm : TM) (ts : List String) : TM :=
  ts.foldl (fun acc t => if t ∈ acc then acc else acc ++ [t]) tm

end TM

/-- JS own-properties of a component instance holding primitive (integer)
data fields: a partial map from field name to value. -/
abbrev Fields := String → Option Int

/-- A component class (a `ComponentConstructor`): its `name`, the data-field
initializers a fresh `new ComponentClass()` starts with, and which of the
optional lifecycle hooks of `IEntityComponent` the class defines. -/
structure CompClass where
  cname : String
  defaults : List (String × Int)
  hasOnAttach : Bool
  hasOnDetach : Bool
  hasOnEnable : Bool
  hasOnDisable : Bool
deriving DecidableEq, Repr

/-- The field store `new ComponentClass()` starts with. -/
def CompClass.defaultFields (K : CompClass) : Fields :=
  fun k => (K.defaults.find? (fun kv => kv.1 = k)).map (fun kv => kv.2)

/-- A component instance (`IEntityComponent`): its constructor, the `entity`
back-reference (as the owning entity's id; `none` before attachment), the
optional `enabled` flag (`none` = the JS property is undefined), and its
data fields. -/
structure Comp where
  cls : CompClass
  entityRef : Option Nat := none
  enabled : Option Bool := none
  fields : Fields

/-- Initial data (a `Partial<T>` object) passed to `ComponentManager.add`:
an optional `enabled` override and field overrides (`none` = the key is
absent from the object). -/
structure InitData where
  enabled : Option Bool := none
  fields : Fields := fun _ => none

/-- `Object.assign(component, data)` on the data fields: every key present
in `data` overrides the component's value. -/
def assignFields (base ov : Fields) : Fields :=
  fun k => match ov k with
  | some v => some v
  | none => base k

/-- `Object.assign(component, data)` on a component instance: `data` may
override `enabled` and any data field (the claims never pass an `entity`
key in initial data, and `Entity.clone` deletes it before forwarding). -/
def applyData (c : Comp) (d : InitData) : Comp :=
  { c with
    enabled := match d.enabled with | some b => some b | none => c.enabled
    fields := assignFields c.fields d.fields }

/-- A lifecycle-hook invocation, recorded in the order the code performs
them; hooks are opaque callbacks, so only their occurrence is modelled. -/
inductive Ev where
  | attach (cname : String)
  | detach (cname : String)
  | enable (cname : String)
  | disable (cname : String)
deriving DecidableEq, Repr

/-- Per-entity component map of `ComponentManager`: a JS `Map` from class
name to instance, insertion-ordered with unique keys. -/
abbrev CM := List (String × Comp)

namespace CM

/-- `this.components.get(name)`. -/
def lookup (cm : CM) (n : String) : Option Comp :=
  (cm.find? (fun p => p.1 = n)).map (fun p => p.2)

/-- `ComponentManager.add(ComponentClass, data?)`, returning the component
handed back to the caller, the updated map, and the hook invocations.
If an instance already exists it is returned unchanged (after a console
warning) with no construction, no data application and no hooks; otherwise
the code constructs the instance, sets `component.entity`, sets
`component.enabled = true`, applies `Object.assign(component, data)`,
stores the instance under the class name, then calls `onAttach?.(entity)`
and `onEnable?.()`. -/
def add (cm : CM) (owner : Nat) (K : CompClass) (data : Option InitData) :
    Comp × CM × List Ev :=
  match lookup cm K.cname with
  | some existing => (existing, cm, [])
  | none =>
    let c : Comp := { cls := K, fields := K.defaultFields }
    let c : Comp := { c with entityRef := some owner }
    let c : Comp := { c with enabled := some true }
    let c : Comp := match data with | some d => applyData c d | none => c
    (c, cm ++ [(K.cname, c)],
      (if K.hasOnAttach then [Ev.attach K.cname] else []) ++
      (if K.hasOnEnable then [Ev.enable K.cname] else []))

/-- `ComponentManager.remove(ComponentClass)`: if absent, returns `false`
with no effect; otherwise calls `onDisable?.()` then `onDetach?.()`,
deletes the entry (the map has unique keys, so deletion is a key filter)
and returns `true`. -/
def remove (cm : CM) (K : CompClass) : Bool × CM × List Ev :=
  match lookup cm K.cname with
  | none => (false, cm, [])
  | some c =>
    (true, cm.filter (fun p => p.1 ≠ K.cname),
      (if c.cls.hasOnDisable then [Ev.disable c.cls.cname] else []) ++
      (if c.cls.hasOnDetach then [Ev.detach c.cls.cname] else []))

/-- `ComponentManager.getNames()`. -/
def names (cm : CM) : List String :=
  cm.map (fun p => p.1)

/-- Hook invocations performed by `ComponentManager.clear()`: for every
stored component in map order, `onDisable?.()` then `onDetach?.()`; the map
is then emptied. -/
def clearEvs (cm : CM) : List Ev :=
  (cm.map (fun p =>
    (if p.2.cls.hasOnDisable then [Ev.disable p.2.cls.cname] else []) ++
    (if p.2.cls.hasOnDetach then [Ev.detach p.2.cls.cname] else []))).flatten

end CM

/-- The observable state of one `Entity`: its immutable id, the `active`
flag, its `ComponentManager` map and its `TagManager` set. -/
structure EntityState where
  id : Nat
  active : Bool
  comps : CM
  etags : TM

/-- The registry state of `EntityManager`: the monotone id counter, the
entity map (a JS `Map` keyed by the unique ids, kept in insertion order),
and the two reverse indexes.  An index is modelled as the total function
sending a key to the id set stored for it (the empty set when the code has
not yet created a `Set` for that key — lazily created sets and absent keys
are observationally equal). -/
structure EMState where
  nextId : Nat
  entities : List EntityState
  compIdx : String → List Nat
  tagIdx : String → List Nat

/-- A freshly constructed `EntityManager`. -/
def emInit : EMState :=
  { nextId := 0, entities := [], compIdx := fun _ => [], tagIdx := fun _ => []
  }

/-- `EntityManager.trackComponent` / `trackTag`: add the entity to the
key's set, creating the set on first use (`Set.add` is a no-op when the
entity is already present). -/
def track (idx : String → List Nat) (key : String) (eid : Nat) :
    String → List Nat :=
  fun n => if n = key then
    (if eid ∈ idx key then idx key else idx key ++ [eid])
  else idx n

/-- `EntityManager.untrackComponent` / `untrackTag`: delete the entity from
the key's set if that set exists (`Set.delete` on a duplicate-free set is a
filter; for an absent key both sides are the empty set). -/
def untrack (idx : String → List Nat) (key : String) (eid : Nat) :
    String → List Nat :=
  fun n => if n = key then (idx key).filter (fun a => a ≠ eid) else idx n

/-- `untrackTag` for every tag in a list, as performed by
`Entity.destroy()` over `this._tags.getAll()`. -/
def untrackAll (idx : String → List Nat) (keys : List String) (eid : Nat) :
    String → List Nat :=
  keys.foldl (fun i t => untrack i t eid) idx

/-- `EntityManager.getEntity(id)` (`this.entities.get(id) || null`). -/
def getEntity (s : EMState) (i : Nat) : Option EntityState :=
  s.entities.find? (fun est => est.id = i)

/-- Replace the stored state of the entity with the given id (mutation of
the `Entity` object held in the entity map). -/
def updateEnt (s : EMState) (i : Nat) (f : EntityState → EntityState) :
    EMState :=
  { s with entities := s.entities.map (fun est => if est.id = i then f est else est) }

/-- `EntityManager.createEntity()`: assign id `nextEntityId++`, register the
new entity (no components, no tags, active) in the entity map.  Node and
archetype handling only touches the scene graph and the pool collaborator,
so it carries no observable state here. -/
def createEntity (s : EMState) : EMState × Nat :=
  ({ s with
      entities := s.entities ++
        [{ id := s.nextId, active := true, comps := [], etags := [] }]
      nextId := s.nextId + 1 },
    s.nextId)

/-- `Entity.add(ComponentClass, data?)`: forward to
`ComponentManager.add`, then `trackComponent(ComponentClass.name, this)`
unconditionally. -/
def eAdd (s : EMState) (eid : Nat) (K : CompClass) (data : Option InitData) :
    EMState :=
  match getEntity s eid with
  | none => s
  | some est =>
    let r := CM.add est.comps eid K data
    let s1 := updateEnt s eid (fun e => { e with comps := r.2.1 })
    { s1 with compIdx := track s1.compIdx K.cname eid }

/-- `Entity.remove(ComponentClass)`: forward to `ComponentManager.remove`;
`untrackComponent` only when removal occurred. -/
def eRemove (s : EMState) (eid : Nat) (K : CompClass) : EMState :=
  match getEntity s eid with
  | none => s
  | some est =>
    let r := CM.remove est.comps K
    let s1 := updateEnt s eid (fun e => { e with comps := r.2.1 })
    if r.1 then { s1 with compIdx := untrack s1.compIdx K.cname eid } else s1

/-- `Entity.tag(tag)`: forward to `TagManager.add`; `trackTag` only when
the tag was newly added. -/
def eTag (s : EMState) (eid : Nat) (t : String) : EMState :=
  match getEntity s eid with
  | none => s
  | some est =>
    let r := TM.add est.etags t
    let s1 := updateEnt s eid (fun e => { e with etags := r.2 })
    if r.1 then { s1 with tagIdx := track s1.tagIdx t eid } else s1

/-- `Entity.untag(tag)`: forward to `TagManager.remove`; `untrackTag` only
when the tag was present. -/
def eUntag (s : EMState) (eid : Nat) (t : String) : EMState :=
  match getEntity s eid with
  | none => s
  | some est =>
    let r := TM.remove est.etags t
    let s1 := updateEnt s eid (fun e => { e with etags := r.2 })
    if r.1 then { s1 with tagIdx := untrack s1.tagIdx t eid } else s1

/-- `EntityManager.destroyEntity(entity)` without the node recycling:
scrub the entity from every component-index set and every tag-index set,
then delete it from the entity map. -/
def destroyEntityM (s : EMState) (eid : Nat) : EMState :=
  { s with
    compIdx := fun n => (s.compIdx n).filter (fun a => a ≠ eid)
    tagIdx := fun t => (s.tagIdx t).filter (fun a => a ≠ eid)
    entities := s.entities.filter (fun est => est.id ≠ eid) }

/-- `Entity.destroy()`: `ComponentManager.clear()` (hook calls, map
emptied), `untrackTag` for every current tag, `TagManager.clear()`, then
`EntityManager.destroyEntity(this)`. -/
def eDestroy (s : EMState) (eid : Nat) : EMState :=
  match getEntity s eid with
  | none => s
  | some est =>
    let s1 := updateEnt s eid (fun e => { e with comps := [], etags := [] })
    let s2 := { s1 with tagIdx := untrackAll s1.tagIdx est.etags eid }
    destroyEntityM s2 eid

/-- One `Entity`-level operation on the registry, performed on a live
entity designated by id (an id not in the entity map makes the operation a
no-op: the claims range over operations applied to registered entities). -/
inductive Op where
  | create
  | addC (eid : Nat) (K : CompClass) (data : Option InitData)
  | removeC (eid : Nat) (K : CompClass)
  | tagT (eid : Nat) (t : String)
  | untagT (eid : Nat) (t : String)
  | destroyE (eid : Nat)

/-- Transition function of the registry. -/
def step (s : EMState) : Op → EMState
  | Op.create => (createEntity s).1
  | Op.addC eid K d => eAdd s eid K d
  | Op.removeC eid K => eRemove s eid K
  | Op.tagT eid t => eTag s eid t
  | Op.untagT eid t => eUntag s eid t
  | Op.destroyE eid => eDestroy s eid

/-- Run a sequence of operations. -/
def run (s : EMState) (ops : List Op) : EMState :=
  ops.foldl step s

/-- `entity.hasComponent(...)` as used by `EntityQuery.execute` (membership
of the class name in the component map). -/
def hasComponentB (est : EntityState) (n : String) : Bool :=
  est.comps.any (fun p => p.1 = n)

/-- `entity.hasTag(tag)`. -/
def hasTagB (est : EntityState) (t : String) : Bool :=
  est.etags.any (fun u => u = t)

/-- The four accumulated string-set filters of an `EntityQuery`. -/
structure EntityQuery where
  componentFilters : List String := []
  tagFilters : List String := []
  excludeComponents : List String := []
  excludeTags : List String := []

/-- `EntityQuery.execute()`: materialize the manager's entity list, then
filter by required components, required tags, excluded components,
excluded tags (each stage skipped when its filter list is empty), and
finally keep only active entities. -/
def EntityQuery.execute (q : EntityQuery) (s : EMState) : List EntityState :=
  let results := s.entities
  let results := if 0 < q.componentFilters.length then
      results.filter (fun e => q.componentFilters.all (fun n => hasComponentB e n))
    else results
  let results := if 0 < q.tagFilters.length then
      results.filter (fun e => q.tagFilters.all (fun t => hasTagB e t))
    else results
  let results := if 0 < q.excludeComponents.length then
      results.filter (fun e => !(q.excludeComponents.any (fun n => hasComponentB e n)))
    else results
  let results := if 0 < q.excludeTags.length then
      results.filter (fun e => !(q.excludeTags.any (fun t => hasTagB e t)))
    else results
  results.filter (fun e => e.active)

/-- One of the four filter stages of `execute`. -/
inductive FilterKind where
  | reqComps | reqTags | exclComps | exclTags
deriving DecidableEq, Repr

/-- The predicate a filter stage keeps. -/
def filterPred (q : EntityQuery) : FilterKind → EntityState → Bool
  | FilterKind.reqComps, e => q.componentFilters.all (fun n => hasComponentB e n)
  | FilterKind.reqTags, e => q.tagFilters.all (fun t => hasTagB e t)
  | FilterKind.exclComps, e => !(q.excludeComponents.any (fun n => hasComponentB e n))
  | FilterKind.exclTags, e => !(q.excludeTags.any (fun t => hasTagB e t))

/-- `execute` with its four filter stages applied in an arbitrary order
(the empty-list guards dropped: a stage with an empty filter list keeps
every entity). -/
def EntityQuery.executeOrdered (q : EntityQuery) (s : EMState)
    (order : List FilterKind) : List EntityState :=
  (order.foldl (fun acc k => acc.filter (filterPred q k)) s.entities).filter
    (fun e => e.active)

/-- `Entity.clone(parent?)` on a registered entity: create a new entity via
the manager; for every attached component, spread its own properties
(`enabled` if set, the data fields), delete the `entity` key, and
`cloned.add(constructor, data)`; finally `cloned.tags.addMultiple(...)` —
a direct `TagManager` write that bypasses `trackTag`. -/
def cloneEntity (s : EMState) (eid : Nat) : Option (EMState × Nat) :=
  match getEntity s eid with
  | none => none
  | some est =>
    let r := createEntity s
    let cid := r.2
    let s1 := est.comps.foldl (fun acc p =>
        eAdd acc cid p.2.cls
          (some { enabled := p.2.enabled, fields := p.2.fields })) r.1
    let s2 := updateEnt s1 cid
        (fun e => { e with etags := TM.addMultiple e.etags est.etags })
    some (s2, cid)

/-- An external mutation of one primitive data field of one attached
component (`entity.get(C)!.field = v`). -/
def setCompField (s : EMState) (eid : Nat) (cn k : String) (v : Int) :
    EMState :=
  updateEnt s eid (fun e =>
    { e with comps := e.comps.map (fun p =>
        if p.1 = cn then
          (p.1, { p.2 with fields := fun k2 => if k2 = k then some v else p.2.fields k2 })
        else p) })

/-- `run` instrumented with the list of ids handed out by
`createEntity`, in order. -/
def stepTr (p : EMState × List Nat) (op : Op) : EMState × List Nat :=
  match op with
  | Op.create => ((createEntity p.1).1, p.2 ++ [(createEntity p.1).2])
  | op => (step p.1 op, p.2)

/-- Run a sequence of operations recording every id assigned at entity
creation. -/
def runTr (s : EMState) (ops : List Op) : EMState × List Nat :=
  ops.foldl stepTr (s, [])

/-! ## Basic lemmas about the index and map primitives -/

lemma mem_track {idx : String → List Nat} {key n : String} {eid a : Nat} :
    a ∈ track idx key eid n ↔ a ∈ idx n ∨ (n = key ∧ a = eid) := by
  unfold track
  by_cases h : n = key
  · subst h
    rw [if_pos rfl]
    by_cases hm : eid ∈ idx n
    · rw [if_pos hm]
      constructor
      · exact fun ha => Or.inl ha
      · rintro (ha | ⟨-, rfl⟩)
        · exact ha
        · exact hm
    · rw [if_neg hm]
      simp only [List.mem_append, List.mem_singleton]
      tauto
  · rw [if_neg h]
    simp [h]

lemma mem_untrack {idx : String → List Nat} {key n : String} {eid a : Nat} :
    a ∈ untrack idx key eid n ↔ a ∈ idx n ∧ ¬(n = key ∧ a = eid) := by
  unfold untrack
  by_cases h : n = key
  · subst h
    simp [List.mem_filter]
  · simp [h]

lemma mem_untrackAll {idx : String → List Nat} {ks : List String} {n : String}
    {eid a : Nat} :
    a ∈ untrackAll idx ks eid n ↔ a ∈ idx n ∧ ¬(n ∈ ks ∧ a = eid) := by
  induction ks generalizing idx with
  | nil => simp [untrackAll]
  | cons k ks ih =>
    show a ∈ untrackAll (untrack idx k eid) ks eid n ↔ _
    rw [ih]
    rw [mem_untrack]
    simp only [List.mem_cons]
    tauto

lemma getEntity_mem {s : EMState} {i : Nat} {est : EntityState}
    (h : getEntity s i = some est) : est ∈ s.entities ∧ est.id = i := by
  unfold getEntity at h
  refine ⟨List.mem_of_find?_eq_some h, ?_⟩
  have := List.find?_some h
  exact of_decide_eq_true this

lemma mem_updateEnt {s : EMState} {i : Nat} {f : EntityState → EntityState}
    {est' : EntityState} :
    est' ∈ (updateEnt s i f).entities ↔
      ∃ est ∈ s.entities, est' = if est.id = i then f est else est := by
  simp only [updateEnt, List.mem_map]
  constructor
  · rintro ⟨est, hm, rfl⟩; exact ⟨est, hm, rfl⟩
  · rintro ⟨est, hm, rfl⟩; exact ⟨est, hm, rfl⟩

lemma ids_updateEnt {s : EMState} {i : Nat} {f : EntityState → EntityState}
    (hf : ∀ e, (f e).id = e.id) :
    (updateEnt s i f).entities.map (fun e => e.id) =
      s.entities.map (fun e => e.id) := by
  simp only [updateEnt, List.map_map]
  refine List.map_congr_left ?_
  intro e _
  by_cases h : e.id = i <;> simp [Function.comp, h, hf]

lemma nextId_updateEnt {s : EMState} {i : Nat} {f : EntityState → EntityState} :
    (updateEnt s i f).nextId = s.nextId := rfl

lemma eq_of_mem_of_id_eq {l : List EntityState}
    (hn : (l.map (fun e => e.id)).Nodup) {e1 e2 : EntityState}
    (h1 : e1 ∈ l) (h2 : e2 ∈ l) (hid : e1.id = e2.id) : e1 = e2 :=
  List.inj_on_of_nodup_map hn h1 h2 hid

/-! ## Lemmas about the component map -/

lemma CM.lookup_some_key_mem {cm : CM} {n : String} {c : Comp}
    (h : CM.lookup cm n = some c) : n ∈ CM.names cm := by
  unfold CM.lookup at h
  cases hf : cm.find? (fun p => p.1 = n) with
  | none => rw [hf] at h; exact absurd h (by simp)
  | some p =>
    rw [hf] at h
    have hp := List.find?_some hf
    have hmem := List.mem_of_find?_eq_some hf
    have : p.1 = n := of_decide_eq_true hp
    exact this ▸ List.mem_map_of_mem (fun q => q.1) hmem

lemma CM.lookup_none_key_not_mem {cm : CM} {n : String}
    (h : CM.lookup cm n = none) : n ∉ CM.names cm := by
  unfold CM.lookup at h
  cases hf : cm.find? (fun p => p.1 = n) with
  | some p => rw [hf] at h; exact absurd h (by simp)
  | none =>
    rw [List.find?_eq_none] at hf
    intro hmem
    rcases List.mem_map.1 hmem with ⟨p, hp, rfl⟩
    exact hf p hp (by simp)

lemma CM.mem_names_add {cm : CM} {o : Nat} {K : CompClass}
    {d : Option InitData} {n : String} :
    n ∈ CM.names (CM.add cm o K d).2.1 ↔ n ∈ CM.names cm ∨ n = K.cname := by
  unfold CM.add
  cases h : CM.lookup cm K.cname with
  | some c =>
    simp only
    have := CM.lookup_some_key_mem h
    constructor
    · exact Or.inl
    · rintro (hm | rfl)
      · exact hm
      · exact this
  | none =>
    simp [CM.names, List.mem_append]

/-! ## Explicit result shapes of the entity-level operations -/

lemma eAdd_none {s : EMState} {eid : Nat} {K : CompClass} {d : Option InitData}
    (hg : getEntity s eid = none) : eAdd s eid K d = s := by
  simp only [eAdd, hg]

lemma eAdd_some {s : EMState} {eid : Nat} {est : EntityState} {K : CompClass}
    {d : Option InitData} (hg : getEntity s eid = some est) :
    eAdd s eid K d =
      { nextId := s.nextId
        entities := (updateEnt s eid
          (fun e => { e with comps := (CM.add est.comps eid K d).2.1 })).entities
        compIdx := track s.compIdx K.cname eid
        tagIdx := s.tagIdx } := by
  simp only [eAdd, hg]
  rfl

lemma eRemove_none {s : EMState} {eid : Nat} {K : CompClass}
    (hg : getEntity s eid = none) : eRemove s eid K = s := by
  unfold eRemove; rw [hg]

lemma eRemove_some_absent {s : EMState} {eid : Nat} {est : EntityState}
    {K : CompClass} (hg : getEntity s eid = some est)
    (hl : CM.lookup est.comps K.cname = none) :
    eRemove s eid K =
      updateEnt s eid (fun e => { e with comps := est.comps }) := by
  simp only [eRemove, CM.remove, hg, hl]
  rfl

lemma eRemove_some_present {s : EMState} {eid : Nat} {est : EntityState}
    {K : CompClass} {c : Comp} (hg : getEntity s eid = some est)
    (hl : CM.lookup est.comps K.cname = some c) :
    eRemove s eid K =
      { nextId := s.nextId
        entities := (updateEnt s eid
          (fun e => { e with
            comps := est.comps.filter (fun p => p.1 ≠ K.cname) })).entities
        compIdx := untrack s.compIdx K.cname eid
        tagIdx := s.tagIdx } := by
  simp only [eRemove, CM.remove, hg, hl]
  rfl

lemma eTag_none {s : EMState} {eid : Nat} {t : String}
    (hg : getEntity s eid = none) : eTag s eid t = s := by
  unfold eTag; rw [hg]

lemma eTag_some_old {s : EMState} {eid : Nat} {est : EntityState} {t : String}
    (hg : getEntity s eid = some est) (ht : t ∈ est.etags) :
    eTag s eid t = updateEnt s eid (fun e => { e with etags := est.etags }) := by
  simp only [eTag, TM.add, hg, if_pos ht]
  rfl

lemma eTag_some_new {s : EMState} {eid : Nat} {est : EntityState} {t : String}
    (hg : getEntity s eid = some est) (ht : t ∉ est.etags) :
    eTag s eid t =
      { nextId := s.nextId
        entities := (updateEnt s eid
          (fun e => { e with etags := est.etags ++ [t] })).entities
        compIdx := s.compIdx
        tagIdx := track s.tagIdx t eid } := by
  simp only [eTag, TM.add, hg, if_neg ht]
  rfl

lemma eUntag_none {s : EMState} {eid : Nat} {t : String}
    (hg : getEntity s eid = none) : eUntag s eid t = s := by
  unfold eUntag; rw [hg]

lemma eUntag_some_absent {s : EMState} {eid : Nat} {est : EntityState}
    {t : String} (hg : getEntity s eid = some est) (ht : t ∉ est.etags) :
    eUntag s eid t =
      updateEnt s eid (fun e => { e with etags := est.etags }) := by
  simp only [eUntag, TM.remove, hg, if_neg ht]
  rfl

lemma eUntag_some_present {s : EMState} {eid : Nat} {est : EntityState}
    {t : String} (hg : getEntity s eid = some est) (ht : t ∈ est.etags) :
    eUntag s eid t =
      { nextId := s.nextId
        entities := (updateEnt s eid
          (fun e => { e with
            etags := est.etags.filter (fun u => u ≠ t) })).entities
        compIdx := s.compIdx
        tagIdx := untrack s.tagIdx t eid } := by
  simp only [eUntag, TM.remove, hg, if_pos ht]
  rfl

lemma eDestroy_none {s : EMState} {eid : Nat}
    (hg : getEntity s eid = none) : eDestroy s eid = s := by
  unfold eDestroy; rw [hg]

lemma eDestroy_some {s : EMState} {eid : Nat} {est : EntityState}
    (hg : getEntity s eid = some est) :
    eDestroy s eid =
      { nextId := s.nextId
        entities := ((updateEnt s eid
          (fun e => { e with comps := [], etags := [] })).entities).filter
            (fun e => e.id ≠ eid)
        compIdx := fun n => (s.compIdx n).filter (fun a => a ≠ eid)
        tagIdx := fun t =>
          (untrackAll s.tagIdx est.etags eid t).filter (fun a => a ≠ eid) } := by
  simp only [eDestroy, destroyEntityM, hg]
  rfl

lemma CM.mem_names_remove {cm : CM} {K : CompClass} {n : String} :
    n ∈ CM.names (CM.remove cm K).2.1 ↔ n ∈ CM.names cm ∧ n ≠ K.cname := by
  unfold CM.remove
  cases h : CM.lookup cm K.cname with
  | none =>
    simp only
    have := CM.lookup_none_key_not_mem h
    constructor
    · intro hm
      exact ⟨hm, fun hn => this (hn ▸ hm)⟩
    · exact fun hp => hp.1
  | some c =>
    simp only [CM.names]
    constructor
    · intro hm
      rcases List.mem_map.1 hm with ⟨p, hp, rfl⟩
      rcases List.mem_filter.1 hp with ⟨hp1, hp2⟩
      exact ⟨List.mem_map_of_mem _ hp1, by simpa using hp2⟩
    · rintro ⟨hm, hne⟩
      rcases List.mem_map.1 hm with ⟨p, hp, rfl⟩
      exact List.mem_map_of_mem _ (List.mem_filter.2 ⟨hp, by simpa using hne⟩)

/-- Membership in the component map after deleting a key. -/
lemma CM.mem_names_filter {cm : CM} {key n : String} :
    n ∈ CM.names (cm.filter (fun p => p.1 ≠ key)) ↔
      n ∈ CM.names cm ∧ n ≠ key := by
  simp only [CM.names]
  constructor
  · intro hm
    rcases List.mem_map.1 hm with ⟨p, hp, rfl⟩
    rcases List.mem_filter.1 hp with ⟨hp1, hp2⟩
    exact ⟨List.mem_map_of_mem _ hp1, by simpa using hp2⟩
  · rintro ⟨hm, hne⟩
    rcases List.mem_map.1 hm with ⟨p, hp, rfl⟩
    exact List.mem_map_of_mem _ (List.mem_filter.2 ⟨hp, by simpa using hne⟩)

lemma setComps_self {s : EMState} {eid : Nat} {est : EntityState}
    (hnd : (s.entities.map (fun e => e.id)).Nodup)
    (hg : getEntity s eid = some est) :
    updateEnt s eid (fun e => { e with comps := est.comps }) = s := by
  obtain ⟨hm, hid⟩ := getEntity_mem hg
  unfold updateEnt
  have h1 : ∀ e ∈ s.entities,
      (if e.id = eid then { e with comps := est.comps } else e) = e := by
    intro e he
    by_cases h : e.id = eid
    · rw [if_pos h]
      have he2 : e = est := eq_of_mem_of_id_eq hnd he hm (by rw [h, hid])
      subst he2
      rfl
    · rw [if_neg h]
  have h2 : s.entities.map
      (fun e => if e.id = eid then { e with comps := est.comps } else e) =
        s.entities :=
    (List.map_congr_left h1).trans (List.map_id _)
  rw [h2]

lemma setTags_self {s : EMState} {eid : Nat} {est : EntityState}
    (hnd : (s.entities.map (fun e => e.id)).Nodup)
    (hg : getEntity s eid = some est) :
    updateEnt s eid (fun e => { e with etags := est.etags }) = s := by
  obtain ⟨hm, hid⟩ := getEntity_mem hg
  unfold updateEnt
  have h1 : ∀ e ∈ s.entities,
      (if e.id = eid then { e with etags := est.etags } else e) = e := by
    intro e he
    by_cases h : e.id = eid
    · rw [if_pos h]
      have he2 : e = est := eq_of_mem_of_id_eq hnd he hm (by rw [h, hid])
      subst he2
      rfl
    · rw [if_neg h]
  have h2 : s.entities.map
      (fun e => if e.id = eid then { e with etags := est.etags } else e) =
        s.entities :=
    (List.map_congr_left h1).trans (List.map_id _)
  rw [h2]

lemma ids_setComps {s : EMState} {i : Nat} {X : CM} :
    (updateEnt s i (fun e => { e with comps := X })).entities.map
        (fun e => e.id) = s.entities.map (fun e => e.id) :=
  @ids_updateEnt s i (fun e => { e with comps := X }) (fun _ => rfl)

lemma ids_setTags {s : EMState} {i : Nat} {X : TM} :
    (updateEnt s i (fun e => { e with etags := X })).entities.map
        (fun e => e.id) = s.entities.map (fun e => e.id) :=
  @ids_updateEnt s i (fun e => { e with etags := X }) (fun _ => rfl)

lemma ids_clearBoth {s : EMState} {i : Nat} :
    (updateEnt s i (fun e => { e with comps := [], etags := [] })).entities.map
        (fun e => e.id) = s.entities.map (fun e => e.id) :=
  @ids_updateEnt s i (fun e => { e with comps := [], etags := [] })
    (fun _ => rfl)

/-! ## The registry invariant -/

/-- Well-formedness and the index/entity consistency invariant of the
registry: entity ids are unique and below the id counter, the index sets
mention only ids below the counter, and every registered entity's
component-name list (`getNames()`) and tag set agree pointwise with the
component index and the tag index. -/
structure RegInv (s : EMState) : Prop where
  nodup : (s.entities.map (fun e => e.id)).Nodup
  idsLt : ∀ est ∈ s.entities, est.id < s.nextId
  cIdxLt : ∀ n a, a ∈ s.compIdx n → a < s.nextId
  tIdxLt : ∀ t a, a ∈ s.tagIdx t → a < s.nextId
  namesOk : ∀ est ∈ s.entities, ∀ n,
    n ∈ CM.names est.comps ↔ est.id ∈ s.compIdx n
  tagsOk : ∀ est ∈ s.entities, ∀ t, t ∈ est.etags ↔ est.id ∈ s.tagIdx t

lemma inv_init : RegInv emInit := by
  refine ⟨?_, ?_, ?_, ?_, ?_, ?_⟩ <;> simp [emInit]

lemma inv_step {s : EMState} (hInv : RegInv s) (op : Op) : RegInv (step s op) := by
  obtain ⟨hnd, hlt, hc, htx, hno, hto⟩ := hInv
  cases op with
  | create =>
    show RegInv (createEntity s).1
    have hnew : s.nextId ∉ s.entities.map (fun e => e.id) := by
      intro hmem
      rcases List.mem_map.1 hmem with ⟨e, he, hide⟩
      exact absurd (hide ▸ hlt e he) (Nat.lt_irrefl _)
    simp only [createEntity]
    refine ⟨?_, ?_, ?_, ?_, ?_, ?_⟩
    · rw [List.map_append, List.nodup_append]
      refine ⟨hnd, List.nodup_singleton _, ?_⟩
      intro a ha hb
      simp only [List.map_cons, List.map_nil, List.mem_singleton] at hb
      subst hb
      exact hnew ha
    · intro est' h'
      rcases List.mem_append.1 h' with h1 | h1
      · exact Nat.lt_succ_of_lt (hlt est' h1)
      · simp only [List.mem_singleton] at h1
        subst h1
        exact Nat.lt_succ_self _
    · intro n a hax
      exact Nat.lt_succ_of_lt (hc n a hax)
    · intro t a hax
      exact Nat.lt_succ_of_lt (htx t a hax)
    · intro est' h' n
      rcases List.mem_append.1 h' with h1 | h1
      · exact hno est' h1 n
      · simp only [List.mem_singleton] at h1
        subst h1
        constructor
        · intro hfalse
          simp [CM.names] at hfalse
        · intro hmem
          exact absurd (hc n _ hmem) (Nat.lt_irrefl _)
    · intro est' h' t
      rcases List.mem_append.1 h' with h1 | h1
      · exact hto est' h1 t
      · simp only [List.mem_singleton] at h1
        subst h1
        constructor
        · intro hfalse
          simp at hfalse
        · intro hmem
          exact absurd (htx t _ hmem) (Nat.lt_irrefl _)
  | addC eid K d =>
    show RegInv (eAdd s eid K d)
    cases hg : getEntity s eid with
    | none =>
      rw [eAdd_none hg]
      exact ⟨hnd, hlt, hc, htx, hno, hto⟩
    | some est =>
      obtain ⟨hm, hid⟩ := getEntity_mem hg
      rw [eAdd_some hg]
      refine ⟨?_, ?_, ?_, ?_, ?_, ?_⟩
      · show ((updateEnt s eid _).entities.map (fun e => e.id)).Nodup
        rw [ids_setComps]
        exact hnd
      · intro est' h'
        rcases mem_updateEnt.1 h' with ⟨e0, he0, rfl⟩
        by_cases h0 : e0.id = eid
        · rw [if_pos h0]
          exact hlt e0 he0
        · rw [if_neg h0]
          exact hlt e0 he0
      · intro n a hax
        rcases mem_track.1 hax with h1 | ⟨-, rfl⟩
        · exact hc n a h1
        · exact hid ▸ hlt est hm
      · intro t a hax
        exact htx t a hax
      · intro est' h' n
        rcases mem_updateEnt.1 h' with ⟨e0, he0, rfl⟩
        by_cases h0 : e0.id = eid
        · rw [if_pos h0]
          have he2 : e0 = est := eq_of_mem_of_id_eq hnd he0 hm (by rw [h0, hid])
          subst he2
          show n ∈ CM.names (CM.add e0.comps eid K d).2.1 ↔ _
          rw [CM.mem_names_add, mem_track]
          rw [hno e0 he0 n]
          constructor
          · rintro (h1 | rfl)
            · exact Or.inl h1
            · exact Or.inr ⟨rfl, h0⟩
          · rintro (h1 | ⟨rfl, -⟩)
            · exact Or.inl h1
            · exact Or.inr rfl
        · rw [if_neg h0]
          rw [hno e0 he0 n, mem_track]
          constructor
          · exact Or.inl
          · rintro (h1 | ⟨-, h2⟩)
            · exact h1
            · exact absurd h2 h0
      · intro est' h' t
        rcases mem_updateEnt.1 h' with ⟨e0, he0, rfl⟩
        by_cases h0 : e0.id = eid
        · rw [if_pos h0]
          exact hto e0 he0 t
        · rw [if_neg h0]
          exact hto e0 he0 t
  | removeC eid K =>
    show RegInv (eRemove s eid K)
    cases hg : getEntity s eid with
    | none =>
      rw [eRemove_none hg]
      exact ⟨hnd, hlt, hc, htx, hno, hto⟩
    | some est =>
      obtain ⟨hm, hid⟩ := getEntity_mem hg
      cases hl : CM.lookup est.comps K.cname with
      | none =>
        rw [eRemove_some_absent hg hl, setComps_self hnd hg]
        exact ⟨hnd, hlt, hc, htx, hno, hto⟩
      | some c =>
        rw [eRemove_some_present hg hl]
        refine ⟨?_, ?_, ?_, ?_, ?_, ?_⟩
        · show ((updateEnt s eid _).entities.map (fun e => e.id)).Nodup
          rw [ids_setComps]
          exact hnd
        · intro est' h'
          rcases mem_updateEnt.1 h' with ⟨e0, he0, rfl⟩
          by_cases h0 : e0.id = eid
          · rw [if_pos h0]
            exact hlt e0 he0
          · rw [if_neg h0]
            exact hlt e0 he0
        · intro n a hax
          exact hc n a (mem_untrack.1 hax).1
        · intro t a hax
          exact htx t a hax
        · intro est' h' n
          rcases mem_updateEnt.1 h' with ⟨e0, he0, rfl⟩
          by_cases h0 : e0.id = eid
          · rw [if_pos h0]
            have he2 : e0 = est :=
              eq_of_mem_of_id_eq hnd he0 hm (by rw [h0, hid])
            subst he2
            show n ∈ CM.names (e0.comps.filter (fun p => p.1 ≠ K.cname)) ↔ _
            rw [CM.mem_names_filter, mem_untrack, hno e0 he0 n]
            constructor
            · rintro ⟨h1, h2⟩
              exact ⟨h1, fun hpair => h2 hpair.1⟩
            · rintro ⟨h1, h2⟩
              refine ⟨h1, fun hn => h2 ⟨hn, h0⟩⟩
          · rw [if_neg h0]
            rw [hno e0 he0 n, mem_untrack]
            constructor
            · intro h1
              exact ⟨h1, fun hpair => h0 hpair.2⟩
            · exact fun h1 => h1.1
        · intro est' h' t
          rcases mem_updateEnt.1 h' with ⟨e0, he0, rfl⟩
          by_cases h0 : e0.id = eid
          · rw [if_pos h0]
            exact hto e0 he0 t
          · rw [if_neg h0]
            exact hto e0 he0 t
  | tagT eid t =>
    show RegInv (eTag s eid t)
    cases hg : getEntity s eid with
    | none =>
      rw [eTag_none hg]
      exact ⟨hnd, hlt, hc, htx, hno, hto⟩
    | some est =>
      obtain ⟨hm, hid⟩ := getEntity_mem hg
      by_cases ht : t ∈ est.etags
      · rw [eTag_some_old hg ht, setTags_self hnd hg]
        exact ⟨hnd, hlt, hc, htx, hno, hto⟩
      · rw [eTag_some_new hg ht]
        refine ⟨?_, ?_, ?_, ?_, ?_, ?_⟩
        · show ((updateEnt s eid _).entities.map (fun e => e.id)).Nodup
          rw [ids_setTags]
          exact hnd
        · intro est' h'
          rcases mem_updateEnt.1 h' with ⟨e0, he0, rfl⟩
          by_cases h0 : e0.id = eid
          · rw [if_pos h0]
            exact hlt e0 he0
          · rw [if_neg h0]
            exact hlt e0 he0
        · intro n a hax
          exact hc n a hax
        · intro u a hax
          rcases mem_track.1 hax with h1 | ⟨-, rfl⟩
          · exact htx u a h1
          · exact hid ▸ hlt est hm
        · intro est' h' n
          rcases mem_updateEnt.1 h' with ⟨e0, he0, rfl⟩
          by_cases h0 : e0.id = eid
          · rw [if_pos h0]
            exact hno e0 he0 n
          · rw [if_neg h0]
            exact hno e0 he0 n
        · intro est' h' u
          rcases mem_updateEnt.1 h' with ⟨e0, he0, rfl⟩
          by_cases h0 : e0.id = eid
          · rw [if_pos h0]
            have he2 : e0 = est :=
              eq_of_mem_of_id_eq hnd he0 hm (by rw [h0, hid])
            subst he2
            show u ∈ e0.etags ++ [t] ↔ _
            rw [List.mem_append, List.mem_singleton, mem_track,
              hto e0 he0 u]
            constructor
            · rintro (h1 | rfl)
              · exact Or.inl h1
              · exact Or.inr ⟨rfl, h0⟩
            · rintro (h1 | ⟨rfl, -⟩)
              · exact Or.inl h1
              · exact Or.inr rfl
          · rw [if_neg h0]
            rw [hto e0 he0 u, mem_track]
            constructor
            · exact Or.inl
            · rintro (h1 | ⟨-, h2⟩)
              · exact h1
              · exact absurd h2 h0
  | untagT eid t =>
    show RegInv (eUntag s eid t)
    cases hg : getEntity s eid with
    | none =>
      rw [eUntag_none hg]
      exact ⟨hnd, hlt, hc, htx, hno, hto⟩
    | some est =>
      obtain ⟨hm, hid⟩ := getEntity_mem hg
      by_cases ht : t ∈ est.etags
      · rw [eUntag_some_present hg ht]
        refine ⟨?_, ?_, ?_, ?_, ?_, ?_⟩
        · show ((updateEnt s eid _).entities.map (fun e => e.id)).Nodup
          rw [ids_setTags]
          exact hnd
        · intro est' h'
          rcases mem_updateEnt.1 h' with ⟨e0, he0, rfl⟩
          by_cases h0 : e0.id = eid
          · rw [if_pos h0]
            exact hlt e0 he0
          · rw [if_neg h0]
            exact hlt e0 he0
        · intro n a hax
          exact hc n a hax
        · intro u a hax
          exact htx u a (mem_untrack.1 hax).1
        · intro est' h' n
          rcases mem_updateEnt.1 h' with ⟨e0, he0, rfl⟩
          by_cases h0 : e0.id = eid
          · rw [if_pos h0]
            exact hno e0 he0 n
          · rw [if_neg h0]
            exact hno e0 he0 n
        · intro est' h' u
          rcases mem_updateEnt.1 h' with ⟨e0, he0, rfl⟩
          by_cases h0 : e0.id = eid
          · rw [if_pos h0]
            have he2 : e0 = est :=
              eq_of_mem_of_id_eq hnd he0 hm (by rw [h0, hid])
            subst he2
            show u ∈ e0.etags.filter (fun v => v ≠ t) ↔ _
            rw [List.mem_filter, mem_untrack, hto e0 he0 u]
            constructor
            · rintro ⟨h1, h2⟩
              refine ⟨h1, fun hpair => ?_⟩
              rw [hpair.1] at h2
              simp at h2
            · rintro ⟨h1, h2⟩
              refine ⟨h1, ?_⟩
              simp only [decide_eq_true_eq]
              exact fun hu => h2 ⟨hu, h0⟩
          · rw [if_neg h0]
            rw [hto e0 he0 u, mem_untrack]
            constructor
            · intro h1
              exact ⟨h1, fun hpair => h0 hpair.2⟩
            · exact fun h1 => h1.1
      · rw [eUntag_some_absent hg ht, setTags_self hnd hg]
        exact ⟨hnd, hlt, hc, htx, hno, hto⟩
  | destroyE eid =>
    show RegInv (eDestroy s eid)
    cases hg : getEntity s eid with
    | none =>
      rw [eDestroy_none hg]
      exact ⟨hnd, hlt, hc, htx, hno, hto⟩
    | some est =>
      obtain ⟨hm, hid⟩ := getEntity_mem hg
      rw [eDestroy_some hg]
      have hmem' : ∀ est',
          est' ∈ ((updateEnt s eid
            (fun e => { e with comps := [], etags := [] })).entities).filter
              (fun e => e.id ≠ eid) →
          est' ∈ s.entities ∧ est'.id ≠ eid := by
        intro est' h'
        rcases List.mem_filter.1 h' with ⟨h1, h2⟩
        have h2' : est'.id ≠ eid := by simpa using h2
        rcases mem_updateEnt.1 h1 with ⟨e0, he0, rfl⟩
        by_cases h0 : e0.id = eid
        · rw [if_pos h0] at h2' ⊢
          exact absurd h0 h2'
        · rw [if_neg h0]
          rw [if_neg h0] at h2'
          exact ⟨he0, h2'⟩
      refine ⟨?_, ?_, ?_, ?_, ?_, ?_⟩
      · have hnd2 : ((updateEnt s eid
            (fun e => { e with comps := [], etags := [] })).entities.map
              (fun e => e.id)).Nodup := by
          rw [ids_clearBoth]
          exact hnd
        exact List.Nodup.sublist ((List.filter_sublist _).map _) hnd2
      · intro est' h'
        exact hlt est' (hmem' est' h').1
      · intro n a hax
        exact hc n a (List.mem_filter.1 hax).1
      · intro u a hax
        have h1 := (List.mem_filter.1 hax).1
        exact htx u a (mem_untrackAll.1 h1).1
      · intro est' h' n
        obtain ⟨he0, hne⟩ := hmem' est' h'
        rw [hno est' he0 n, List.mem_filter]
        constructor
        · intro h1
          exact ⟨h1, by simpa using hne⟩
        · exact fun h1 => h1.1
      · intro est' h' u
        obtain ⟨he0, hne⟩ := hmem' est' h'
        rw [hto est' he0 u, List.mem_filter, mem_untrackAll]
        constructor
        · intro h1
          refine ⟨⟨h1, fun hpair => hne hpair.2⟩, by simpa using hne⟩
        · exact fun h1 => h1.1.1

/-- The invariant holds in every state reachable from a fresh manager. -/
lemma inv_run (ops : List Op) : RegInv (run emInit ops) := by
  suffices h : ∀ s, RegInv s → RegInv (run s ops) from h emInit inv_init
  induction ops with
  | nil => exact fun s hs => hs
  | cons op ops ih =>
    intro s hs
    exact ih (step s op) (inv_step hs op)

/-! ## Query characterization -/

lemma hasComponentB_iff {est : EntityState} {n : String} :
    hasComponentB est n = true ↔ n ∈ CM.names est.comps := by
  simp [hasComponentB, CM.names, List.any_eq_true]

lemma hasTagB_iff {est : EntityState} {t : String} :
    hasTagB est t = true ↔ t ∈ est.etags := by
  simp [hasTagB, List.any_eq_true]

lemma mem_foldl_filter {α κ : Type} (p : κ → α → Bool) (ks : List κ)
    (l : List α) (a : α) :
    a ∈ ks.foldl (fun acc k => acc.filter (p k)) l ↔
      a ∈ l ∧ ∀ k ∈ ks, p k a = true := by
  induction ks generalizing l with
  | nil => simp
  | cons k ks ih =>
    show a ∈ ks.foldl _ (l.filter (p k)) ↔ _
    rw [ih]
    simp only [List.mem_filter, List.mem_cons]
    constructor
    · rintro ⟨⟨h1, h2⟩, h3⟩
      refine ⟨h1, ?_⟩
      rintro k' (rfl | hk')
      · exact h2
      · exact h3 k' hk'
    · rintro ⟨h1, h2⟩
      exact ⟨⟨h1, h2 k (Or.inl rfl)⟩, fun k' hk' => h2 k' (Or.inr hk')⟩

lemma guard_filter_all {l : List EntityState} {fs : List String}
    {f : EntityState → String → Bool} :
    (if 0 < fs.length then l.filter (fun e => fs.all (f e)) else l) =
      l.filter (fun e => fs.all (f e)) := by
  by_cases h : 0 < fs.length
  · rw [if_pos h]
  · rw [if_neg h]
    have hfs : fs = [] := by
      cases fs with
      | nil => rfl
      | cons a as => exact absurd (Nat.succ_pos _) h
    subst hfs
    simp [List.filter_true]

lemma guard_filter_any {l : List EntityState} {fs : List String}
    {f : EntityState → String → Bool} :
    (if 0 < fs.length then l.filter (fun e => !(fs.any (f e))) else l) =
      l.filter (fun e => !(fs.any (f e))) := by
  by_cases h : 0 < fs.length
  · rw [if_pos h]
  · rw [if_neg h]
    have hfs : fs = [] := by
      cases fs with
      | nil => rfl
      | cons a as => exact absurd (Nat.succ_pos _) h
    subst hfs
    simp [List.filter_true]

/-- `execute` coincides with the guard-free pipeline applied in the source
order. -/
lemma execute_eq_ordered (q : EntityQuery) (s : EMState) :
    q.execute s = q.executeOrdered s
      [FilterKind.reqComps, FilterKind.reqTags,
        FilterKind.exclComps, FilterKind.exclTags] := by
  unfold EntityQuery.execute EntityQuery.executeOrdered
  simp only [List.foldl_cons, List.foldl_nil]
  rw [guard_filter_all, guard_filter_all, guard_filter_any, guard_filter_any]
  rfl

lemma mem_executeOrdered {q : EntityQuery} {s : EMState}
    {order : List FilterKind} {est : EntityState} :
    est ∈ q.executeOrdered s order ↔
      est ∈ s.entities ∧ est.active = true ∧
        ∀ k ∈ order, filterPred q k est = true := by
  unfold EntityQuery.executeOrdered
  rw [List.mem_filter, mem_foldl_filter]
  tauto

/-! ## Claims C1 and C2 -/

/-- A `Health` component class, used for concrete witness scenarios. -/
def HealthC : CompClass :=
  { cname := "Health", defaults := [("max", 100), ("current", 100)]
    hasOnAttach := true, hasOnDetach := true
    hasOnEnable := true, hasOnDisable := false }

/-- Concrete operation run used by the C1 witness. -/
def wOps1 : List Op :=
  [Op.create, Op.addC 0 HealthC none, Op.tagT 0 "enemy"]

/-- The entity state the C1 witness run produces for id 0. -/
def wEst1 : EntityState :=
  { id := 0, active := true
    comps := [("Health",
      { cls := HealthC, entityRef := some 0, enabled := some true
        fields := HealthC.defaultFields })]
    etags := ["enemy"] }

/-- C1: for every entity registered in the manager, after any sequence of
entity-level operations (create, add, remove, tag, untag, destroy) starting
from a fresh manager, the component-type names attached to it are exactly
the names whose component-index entry contains it, and its tag set is
exactly the set of tags whose tag-index entry contains it. -/
theorem claim1_index_entity_consistency (ops : List Op) (est : EntityState)
    (hreg : est ∈ (run emInit ops).entities) :
    (∀ n, n ∈ CM.names est.comps ↔ est.id ∈ (run emInit ops).compIdx n) ∧
    (∀ t, t ∈ est.etags ↔ est.id ∈ (run emInit ops).tagIdx t) :=
  ⟨(inv_run ops).namesOk est hreg, (inv_run ops).tagsOk est hreg⟩

/-- Witness for C1 at a concrete run: create an entity, attach `Health`,
tag it `"enemy"`, and read back both consistency directions. -/
theorem claim1_index_entity_consistency_witness :
    ("Health" ∈ CM.names wEst1.comps ↔
      (0 : Nat) ∈ (run emInit wOps1).compIdx "Health") ∧
    ("enemy" ∈ wEst1.etags ↔
      (0 : Nat) ∈ (run emInit wOps1).tagIdx "enemy") :=
  have h := claim1_index_entity_consistency wOps1 wEst1 (List.Mem.head _)
  ⟨h.1 "Health", h.2 "enemy"⟩

lemma filterPred_iff (q : EntityQuery) (est : EntityState) :
    (filterPred q FilterKind.reqComps est = true ↔
      ∀ n ∈ q.componentFilters, n ∈ CM.names est.comps) ∧
    (filterPred q FilterKind.reqTags est = true ↔
      ∀ t ∈ q.tagFilters, t ∈ est.etags) ∧
    (filterPred q FilterKind.exclComps est = true ↔
      ∀ n ∈ q.excludeComponents, n ∉ CM.names est.comps) ∧
    (filterPred q FilterKind.exclTags est = true ↔
      ∀ t ∈ q.excludeTags, t ∉ est.etags) := by
  refine ⟨?_, ?_, ?_, ?_⟩ <;>
    simp [filterPred, List.all_eq_true, List.any_eq_true,
      hasComponentB_iff, hasTagB_iff]

/-- An `Armor` component class for witness scenarios. -/
def ArmorC : CompClass :=
  { cname := "Armor", defaults := [("value", 5)]
    hasOnAttach := false, hasOnDetach := false
    hasOnEnable := false, hasOnDisable := true }

/-- Query used by the C2 witness. -/
def wQ2 : EntityQuery :=
  { componentFilters := ["Health"], tagFilters := ["enemy"]
    excludeComponents := ["Armor"], excludeTags := ["boss"] }

/-- C2: `execute()` returns exactly the set of registered entities that are
active, whose component-name set contains all required components and none
of the excluded ones, and whose tag set contains all required tags and no
excluded tag; and applying the four filter stages in any order gives the
same result. -/
theorem claim2_query_execute (q : EntityQuery) (s : EMState) :
    (∀ est, est ∈ q.execute s ↔
      est ∈ s.entities ∧ est.active = true ∧
      (∀ n ∈ q.componentFilters, n ∈ CM.names est.comps) ∧
      (∀ t ∈ q.tagFilters, t ∈ est.etags) ∧
      (∀ n ∈ q.excludeComponents, n ∉ CM.names est.comps) ∧
      (∀ t ∈ q.excludeTags, t ∉ est.etags)) ∧
    (∀ order : List FilterKind,
      order.Perm [FilterKind.reqComps, FilterKind.reqTags,
        FilterKind.exclComps, FilterKind.exclTags] →
      ∀ est, (est ∈ q.executeOrdered s order ↔ est ∈ q.execute s)) := by
  constructor
  · intro est
    rw [execute_eq_ordered, mem_executeOrdered]
    simp only [List.mem_cons, List.not_mem_nil, or_false, forall_eq_or_imp,
      forall_eq]
    rw [(filterPred_iff q est).1, (filterPred_iff q est).2.1,
      (filterPred_iff q est).2.2.1, (filterPred_iff q est).2.2.2]
  · intro order hperm est
    rw [mem_executeOrdered, execute_eq_ordered, mem_executeOrdered]
    constructor
    · rintro ⟨h1, h2, h3⟩
      exact ⟨h1, h2, fun k hk => h3 k (hperm.mem_iff.2 hk)⟩
    · rintro ⟨h1, h2, h3⟩
      exact ⟨h1, h2, fun k hk => h3 k (hperm.mem_iff.1 hk)⟩

/-- Witness for C2: the concrete run of C1's scenario, a query requiring
`Health` and `"enemy"` while excluding `Armor` and `"boss"`, evaluated at
the registered entity, plus a reordered pipeline. -/
theorem claim2_query_execute_witness :
    (wEst1 ∈ wQ2.execute (run emInit wOps1) ↔
      wEst1 ∈ (run emInit wOps1).entities ∧ wEst1.active = true ∧
      (∀ n ∈ wQ2.componentFilters, n ∈ CM.names wEst1.comps) ∧
      (∀ t ∈ wQ2.tagFilters, t ∈ wEst1.etags) ∧
      (∀ n ∈ wQ2.excludeComponents, n ∉ CM.names wEst1.comps) ∧
      (∀ t ∈ wQ2.excludeTags, t ∉ wEst1.etags)) ∧
    (wEst1 ∈ wQ2.executeOrdered (run emInit wOps1)
        [FilterKind.exclTags, FilterKind.exclComps,
          FilterKind.reqTags, FilterKind.reqComps] ↔
      wEst1 ∈ wQ2.execute (run emInit wOps1)) :=
  ⟨(claim2_query_execute wQ2 (run emInit wOps1)).1 wEst1,
   (claim2_query_execute wQ2 (run emInit wOps1)).2
     [FilterKind.exclTags, FilterKind.exclComps,
       FilterKind.reqTags, FilterKind.reqComps] (by decide) wEst1⟩

/-! ## Claims C3, C5, C6, C7, C10 (component and tag managers) -/

/-- A `Health` component instance as produced by a fresh attach. -/
def wCompH : Comp :=
  { cls := HealthC, entityRef := some 0, enabled := some true
    fields := HealthC.defaultFields }

/-- C3: calling `add` for a component type already attached returns the
pre-existing instance, leaves the component map unchanged, and invokes no
lifecycle hook (hence constructs nothing and applies no initial data);
the call is total, so no exception is raised. -/
theorem claim3_duplicate_add (cm : CM) (owner : Nat) (K : CompClass)
    (data : Option InitData) (c : Comp)
    (h : CM.lookup cm K.cname = some c) :
    CM.add cm owner K data = (c, cm, []) := by
  unfold CM.add
  rw [h]

/-- Witness for C3: re-adding `Health` with override data returns the
stored instance and changes nothing. -/
theorem claim3_duplicate_add_witness :
    CM.add [("Health", wCompH)] 0 HealthC
        (some { fields := fun k => if k = "current" then some 1 else none }) =
      (wCompH, [("Health", wCompH)], []) :=
  claim3_duplicate_add _ _ _ _ _ rfl

/-- C5: a fresh attach constructs an instance whose back-reference is the
owning entity, whose `enabled` flag was set to `true` before the initial
data was shallow-copied over it, and whose fields are the class defaults
overridden by the initial data; the instance is stored under the class
name and the hooks fire as `onAttach` then `onEnable` (each when the class
defines it, in that order). -/
theorem claim5_fresh_add_order (cm : CM) (owner : Nat) (K : CompClass)
    (d : InitData) (h : CM.lookup cm K.cname = none) :
    ∃ c : Comp,
      CM.add cm owner K (some d) = (c, cm ++ [(K.cname, c)],
        (if K.hasOnAttach then [Ev.attach K.cname] else []) ++
        (if K.hasOnEnable then [Ev.enable K.cname] else [])) ∧
      c.cls = K ∧
      c.entityRef = some owner ∧
      c.enabled = (match d.enabled with | some b => some b | none => some true) ∧
      (∀ k, c.fields k =
        (match d.fields k with | some v => some v | none => K.defaultFields k)) := by
  unfold CM.add
  rw [h]
  exact ⟨_, rfl, rfl, rfl, rfl, fun k => rfl⟩

/-- Initial data `{current: 50}` used by the C5 witness. -/
def wData5 : InitData :=
  { fields := fun k => if k = "current" then some 50 else none }

/-- Witness for C5: attaching `Health` with `{current: 50}` to an empty
manager. -/
theorem claim5_fresh_add_order_witness :
    ∃ c : Comp,
      CM.add [] 7 HealthC (some wData5) = (c, [] ++ [(HealthC.cname, c)],
        (if HealthC.hasOnAttach then [Ev.attach HealthC.cname] else []) ++
        (if HealthC.hasOnEnable then [Ev.enable HealthC.cname] else [])) ∧
      c.cls = HealthC ∧
      c.entityRef = some 7 ∧
      c.enabled = (match wData5.enabled with
        | some b => some b | none => some true) ∧
      (∀ k, c.fields k = (match wData5.fields k with
        | some v => some v | none => HealthC.defaultFields k)) :=
  claim5_fresh_add_order [] 7 HealthC wData5 rfl

lemma CM.lookup_cons {p : String × Comp} {cm : CM} {n : String} :
    CM.lookup (p :: cm) n = if p.1 = n then some p.2 else CM.lookup cm n := by
  unfold CM.lookup
  by_cases h : p.1 = n
  · rw [List.find?_cons_of_pos _ (by simpa using h), if_pos h]
    rfl
  · rw [List.find?_cons_of_neg _ (by simpa using h), if_neg h]

lemma CM.lookup_filter_self {cm : CM} {key : String} :
    CM.lookup (cm.filter (fun p => p.1 ≠ key)) key = none := by
  unfold CM.lookup
  rw [List.find?_eq_none.2]
  · rfl
  · intro p hp
    have h2 := (List.mem_filter.1 hp).2
    simp only [decide_eq_true_eq] at h2
    simpa using h2

lemma CM.lookup_filter_other {cm : CM} {key n : String} (h : n ≠ key) :
    CM.lookup (cm.filter (fun p => p.1 ≠ key)) n = CM.lookup cm n := by
  induction cm with
  | nil => rfl
  | cons p cm ih =>
    rw [List.filter_cons]
    by_cases hp : p.1 = key
    · rw [if_neg (by simpa using hp), CM.lookup_cons,
        if_neg (fun he => h (he.symm.trans hp))]
      exact ih
    · rw [if_pos (by simpa using hp), CM.lookup_cons, CM.lookup_cons]
      by_cases hn : p.1 = n
      · rw [if_pos hn, if_pos hn]
      · rw [if_neg hn, if_neg hn]
        exact ih

/-- C6: removing an attached component fires `onDisable` then `onDetach`
(each when its class defines it, in that order), deletes exactly that map
entry, and returns `true`; removing an absent component type returns
`false`, fires no hook and leaves the map unchanged. -/
theorem claim6_remove (cm : CM) (K : CompClass) :
    (∀ c, CM.lookup cm K.cname = some c →
      (CM.remove cm K).1 = true ∧
      (CM.remove cm K).2.2 =
        (if c.cls.hasOnDisable then [Ev.disable c.cls.cname] else []) ++
        (if c.cls.hasOnDetach then [Ev.detach c.cls.cname] else []) ∧
      CM.lookup (CM.remove cm K).2.1 K.cname = none ∧
      (∀ n, n ≠ K.cname →
        CM.lookup (CM.remove cm K).2.1 n = CM.lookup cm n)) ∧
    (CM.lookup cm K.cname = none → CM.remove cm K = (false, cm, [])) := by
  constructor
  · intro c hc
    unfold CM.remove
    rw [hc]
    exact ⟨rfl, rfl, CM.lookup_filter_self, fun n hn => CM.lookup_filter_other hn⟩
  · intro hc
    unfold CM.remove
    rw [hc]

/-- Witness for C6: removing an attached `Health` succeeds; removing from
an empty manager reports `false` with no hooks. -/
theorem claim6_remove_witness :
    (CM.remove [("Health", wCompH)] HealthC).1 = true ∧
    CM.remove [] HealthC = (false, [], []) :=
  ⟨((claim6_remove [("Health", wCompH)] HealthC).1 wCompH rfl).1,
   (claim6_remove [] HealthC).2 rfl⟩

/-- C7: `TagManager.add` returns `true` and inserts the tag exactly when
it was absent, and returns `false` leaving the set unchanged when it was
present; `remove` returns `true` and deletes the tag exactly when it was
present, and returns `false` leaving the set unchanged otherwise.  Both
are total functions over arbitrary strings. -/
theorem claim7_tag_manager (tm : TM) (t : String) :
    ((TM.add tm t).1 = true ↔ t ∉ tm) ∧
    (∀ u, u ∈ (TM.add tm t).2 ↔ u ∈ tm ∨ u = t) ∧
    (t ∈ tm → TM.add tm t = (false, tm)) ∧
    ((TM.remove tm t).1 = true ↔ t ∈ tm) ∧
    (t ∉ (TM.remove tm t).2) ∧
    (∀ u, u ∈ (TM.remove tm t).2 ↔ u ∈ tm ∧ u ≠ t) ∧
    (t ∉ tm → TM.remove tm t = (false, tm)) := by
  unfold TM.add TM.remove
  by_cases h : t ∈ tm
  · rw [if_pos h, if_pos h]
    refine ⟨?_, ?_, ?_, ?_, ?_, ?_, ?_⟩
    · simp [h]
    · intro u
      constructor
      · exact Or.inl
      · rintro (hu | rfl)
        · exact hu
        · exact h
    · intro _
      rfl
    · simp [h]
    · simp [List.mem_filter]
    · intro u
      rw [List.mem_filter]
      simp
    · intro hn
      exact absurd h hn
  · rw [if_neg h, if_neg h]
    refine ⟨?_, ?_, ?_, ?_, ?_, ?_, ?_⟩
    · simp [h]
    · intro u
      simp [List.mem_append]
    · intro hc
      exact absurd hc h
    · simp [h]
    · exact h
    · intro u
      constructor
      · intro hu
        refine ⟨hu, ?_⟩
        rintro rfl
        exact h hu
      · exact fun hu => hu.1
    · intro _
      rfl

/-- Witness for C7: adding a fresh tag reports `true`; removing an absent
tag reports `false` and leaves the set unchanged. -/
theorem claim7_tag_manager_witness :
    ((TM.add ["enemy"] "boss").1 = true ↔ "boss" ∉ ["enemy"]) ∧
    TM.remove ["enemy"] "boss" = (false, ["enemy"]) :=
  ⟨(claim7_tag_manager ["enemy"] "boss").1,
   (claim7_tag_manager ["enemy"] "boss").2.2.2.2.2.2 (by decide)⟩

/-- C10: on a fresh attach the initial data is applied after the `enabled`
flag is set to `true`, so initial data `{enabled: false}` leaves the new
component disabled; `onEnable` is nevertheless invoked (exactly once when
the class defines it), independently of the resulting `enabled` value. -/
theorem claim10_enable_hook_unconditional (cm : CM) (owner : Nat)
    (K : CompClass) (d : InitData) (h : CM.lookup cm K.cname = none) :
    ((CM.add cm owner K (some d)).2.2.count (Ev.enable K.cname) =
      if K.hasOnEnable then 1 else 0) ∧
    (d.enabled = some false →
      (CM.add cm owner K (some d)).1.enabled = some false) := by
  unfold CM.add
  rw [h]
  constructor
  · by_cases ha : K.hasOnAttach <;> by_cases he : K.hasOnEnable <;>
      simp [ha, he, List.count_cons, List.count_nil]
  · intro hd
    show (match d.enabled with | some b => some b | none => some true) =
      some false
    rw [hd]

/-- Initial data `{enabled: false}` used by the C10 witness. -/
def wData10 : InitData := { enabled := some false }

/-- Witness for C10: attaching `Health` with `{enabled: false}` fires
`onEnable` once and stores a disabled component. -/
theorem claim10_enable_hook_witness :
    ((CM.add [] 0 HealthC (some wData10)).2.2.count
      (Ev.enable HealthC.cname) = if HealthC.hasOnEnable then 1 else 0) ∧
    (CM.add [] 0 HealthC (some wData10)).1.enabled = some false :=
  ⟨(claim10_enable_hook_unconditional [] 0 HealthC wData10 rfl).1,
   (claim10_enable_hook_unconditional [] 0 HealthC wData10 rfl).2 rfl⟩

/-! ## Identity bookkeeping across steps (claims C4 and C9) -/

lemma eAdd_nextId (s : EMState) (eid : Nat) (K : CompClass)
    (d : Option InitData) : (eAdd s eid K d).nextId = s.nextId := by
  unfold eAdd
  split <;> rfl

lemma eRemove_nextId (s : EMState) (eid : Nat) (K : CompClass) :
    (eRemove s eid K).nextId = s.nextId := by
  cases hg : getEntity s eid with
  | none => rw [eRemove_none hg]
  | some est =>
    cases hl : CM.lookup est.comps K.cname with
    | none =>
      rw [eRemove_some_absent hg hl]
      rfl
    | some c => rw [eRemove_some_present hg hl]

lemma eTag_nextId (s : EMState) (eid : Nat) (t : String) :
    (eTag s eid t).nextId = s.nextId := by
  cases hg : getEntity s eid with
  | none => rw [eTag_none hg]
  | some est =>
    by_cases ht : t ∈ est.etags
    · rw [eTag_some_old hg ht]
      rfl
    · rw [eTag_some_new hg ht]

lemma eUntag_nextId (s : EMState) (eid : Nat) (t : String) :
    (eUntag s eid t).nextId = s.nextId := by
  cases hg : getEntity s eid with
  | none => rw [eUntag_none hg]
  | some est =>
    by_cases ht : t ∈ est.etags
    · rw [eUntag_some_present hg ht]
    · rw [eUntag_some_absent hg ht]
      rfl

lemma eDestroy_nextId (s : EMState) (eid : Nat) :
    (eDestroy s eid).nextId = s.nextId := by
  unfold eDestroy
  split <;> rfl

lemma step_nextId {s : EMState} (op : Op) : s.nextId ≤ (step s op).nextId := by
  cases op with
  | create => exact Nat.le_succ _
  | addC eid K d => exact Nat.le_of_eq (eAdd_nextId s eid K d).symm
  | removeC eid K => exact Nat.le_of_eq (eRemove_nextId s eid K).symm
  | tagT eid t => exact Nat.le_of_eq (eTag_nextId s eid t).symm
  | untagT eid t => exact Nat.le_of_eq (eUntag_nextId s eid t).symm
  | destroyE eid => exact Nat.le_of_eq (eDestroy_nextId s eid).symm

lemma mem_ids_of_updateEnt {s : EMState} {i : Nat}
    {f : EntityState → EntityState} {est' : EntityState}
    (h : est' ∈ (updateEnt s i f).entities)
    (hf : ∀ e, (f e).id = e.id) :
    est'.id ∈ s.entities.map (fun e => e.id) := by
  rcases mem_updateEnt.1 h with ⟨e0, he0, rfl⟩
  by_cases h0 : e0.id = i
  · rw [if_pos h0, hf e0]
    exact List.mem_map_of_mem _ he0
  · rw [if_neg h0]
    exact List.mem_map_of_mem _ he0

/-- Every entity id after a step is an old entity id, except that `create`
may register the (old) `nextId`. -/
lemma step_ids {s : EMState} {op : Op} {est' : EntityState}
    (h : est' ∈ (step s op).entities) :
    est'.id ∈ s.entities.map (fun e => e.id) ∨
      (op = Op.create ∧ est'.id = s.nextId) := by
  cases op with
  | create =>
    simp only [step, createEntity] at h
    rcases List.mem_append.1 h with h1 | h1
    · exact Or.inl (List.mem_map_of_mem _ h1)
    · simp only [List.mem_singleton] at h1
      subst h1
      exact Or.inr ⟨rfl, rfl⟩
  | addC eid K d =>
    refine Or.inl ?_
    simp only [step] at h
    cases hg : getEntity s eid with
    | none =>
      rw [eAdd_none hg] at h
      exact List.mem_map_of_mem _ h
    | some est =>
      rw [eAdd_some hg] at h
      exact mem_ids_of_updateEnt h (fun _ => rfl)
  | removeC eid K =>
    refine Or.inl ?_
    simp only [step] at h
    cases hg : getEntity s eid with
    | none =>
      rw [eRemove_none hg] at h
      exact List.mem_map_of_mem _ h
    | some est =>
      cases hl : CM.lookup est.comps K.cname with
      | none =>
        rw [eRemove_some_absent hg hl] at h
        exact mem_ids_of_updateEnt h (fun _ => rfl)
      | some c =>
        rw [eRemove_some_present hg hl] at h
        exact mem_ids_of_updateEnt h (fun _ => rfl)
  | tagT eid t =>
    refine Or.inl ?_
    simp only [step] at h
    cases hg : getEntity s eid with
    | none =>
      rw [eTag_none hg] at h
      exact List.mem_map_of_mem _ h
    | some est =>
      by_cases ht : t ∈ est.etags
      · rw [eTag_some_old hg ht] at h
        exact mem_ids_of_updateEnt h (fun _ => rfl)
      · rw [eTag_some_new hg ht] at h
        exact mem_ids_of_updateEnt h (fun _ => rfl)
  | untagT eid t =>
    refine Or.inl ?_
    simp only [step] at h
    cases hg : getEntity s eid with
    | none =>
      rw [eUntag_none hg] at h
      exact List.mem_map_of_mem _ h
    | some est =>
      by_cases ht : t ∈ est.etags
      · rw [eUntag_some_present hg ht] at h
        exact mem_ids_of_updateEnt h (fun _ => rfl)
      · rw [eUntag_some_absent hg ht] at h
        exact mem_ids_of_updateEnt h (fun _ => rfl)
  | destroyE eid =>
    refine Or.inl ?_
    simp only [step] at h
    cases hg : getEntity s eid with
    | none =>
      rw [eDestroy_none hg] at h
      exact List.mem_map_of_mem _ h
    | some est =>
      rw [eDestroy_some hg] at h
      exact mem_ids_of_updateEnt (List.mem_filter.1 h).1 (fun _ => rfl)

/-- A step never resurrects an id that is absent from the entity map and
below the id counter. -/
lemma dead_stays_dead_step {s : EMState} {eid : Nat}
    (hout : ∀ est ∈ s.entities, est.id ≠ eid) (hlt : eid < s.nextId)
    (op : Op) :
    (∀ est ∈ (step s op).entities, est.id ≠ eid) ∧
      eid < (step s op).nextId := by
  constructor
  · intro est' h'
    rcases step_ids h' with h1 | ⟨-, h2⟩
    · rcases List.mem_map.1 h1 with ⟨e0, he0, hide⟩
      rw [← hide]
      exact hout e0 he0
    · rw [h2]
      exact ne_of_gt hlt
  · exact Nat.lt_of_lt_of_le hlt (step_nextId op)

lemma dead_stays_dead {s : EMState} {eid : Nat}
    (hout : ∀ est ∈ s.entities, est.id ≠ eid) (hlt : eid < s.nextId)
    (ops : List Op) :
    ∀ est ∈ (run s ops).entities, est.id ≠ eid := by
  induction ops generalizing s with
  | nil => exact hout
  | cons op ops ih =>
    have h := dead_stays_dead_step hout hlt op
    exact ih h.1 h.2

/-- C4: after `Entity.destroy()` (which ends in
`EntityManager.destroyEntity`) completes on a registered entity, the
entity is absent from every component-index set and every tag-index set,
`getEntity` on its id returns `null`, and no `EntityQuery.execute()`
result — in that state or after any further operations — contains an
entity with its id, even though external code may retain the stale entity
value. -/
theorem claim4_destroy_complete (ops0 : List Op) (eid : Nat)
    (est : EntityState)
    (hg : getEntity (run emInit ops0) eid = some est) :
    (∀ n, eid ∉ (eDestroy (run emInit ops0) eid).compIdx n) ∧
    (∀ t, eid ∉ (eDestroy (run emInit ops0) eid).tagIdx t) ∧
    getEntity (eDestroy (run emInit ops0) eid) eid = none ∧
    (∀ ops1 : List Op, ∀ q : EntityQuery, ∀ est',
      est' ∈ q.execute (run (eDestroy (run emInit ops0) eid) ops1) →
      est'.id ≠ eid) := by
  obtain ⟨hm, hid⟩ := getEntity_mem hg
  have hout : ∀ e ∈ (eDestroy (run emInit ops0) eid).entities, e.id ≠ eid := by
    intro e he
    rw [eDestroy_some hg] at he
    have h2 := (List.mem_filter.1 he).2
    simpa using h2
  refine ⟨?_, ?_, ?_, ?_⟩
  · intro n hmem
    rw [eDestroy_some hg] at hmem
    have h2 := (List.mem_filter.1 hmem).2
    simp at h2
  · intro t hmem
    rw [eDestroy_some hg] at hmem
    have h2 := (List.mem_filter.1 hmem).2
    simp at h2
  · rw [eDestroy_some hg]
    unfold getEntity
    apply List.find?_eq_none.2
    intro e he
    have h2 := (List.mem_filter.1 he).2
    simpa using h2
  · intro ops1 q est' hmem
    have h1 : est' ∈ (run (eDestroy (run emInit ops0) eid) ops1).entities := by
      rw [execute_eq_ordered, mem_executeOrdered] at hmem
      exact hmem.1
    have hlt2 : eid < (eDestroy (run emInit ops0) eid).nextId := by
      rw [eDestroy_nextId, ← hid]
      exact (inv_run ops0).idsLt est hm
    exact dead_stays_dead hout hlt2 ops1 est' h1

/-- Operations performed after the destroy in the C4 witness run. -/
def wOps4 : List Op := [Op.create, Op.tagT 1 "enemy"]

/-- Query used by the C4 witness. -/
def wQ4 : EntityQuery := { tagFilters := ["enemy"] }

/-- The entity registered after the destroy in the C4 witness run. -/
def wEst4 : EntityState :=
  { id := 1, active := true, comps := [], etags := ["enemy"] }

/-- Witness for C4: destroy the entity of C1's run, then create a new
entity with the same tag and observe that queries only ever return the new
id. -/
theorem claim4_destroy_complete_witness :
    (0 : Nat) ∉ (eDestroy (run emInit wOps1) 0).compIdx "Health" ∧
    (0 : Nat) ∉ (eDestroy (run emInit wOps1) 0).tagIdx "enemy" ∧
    getEntity (eDestroy (run emInit wOps1) 0) 0 = none ∧
    wEst4.id ≠ 0 :=
  have h := claim4_destroy_complete wOps1 0 wEst1 rfl
  ⟨h.1 "Health", h.2.1 "enemy", h.2.2.1,
    h.2.2.2 wOps4 wQ4 wEst4 (List.Mem.head _)⟩

/-! ## Claim C9 -/

lemma stepTr_fst (p : EMState × List Nat) (op : Op) :
    (stepTr p op).1 = step p.1 op := by
  cases op <;> rfl

lemma runTr_fst (s : EMState) (ops : List Op) :
    (runTr s ops).1 = run s ops := by
  suffices h : ∀ p : EMState × List Nat, (ops.foldl stepTr p).1 = run p.1 ops
    from h (s, [])
  induction ops with
  | nil => exact fun p => rfl
  | cons op ops ih =>
    intro p
    show (ops.foldl stepTr (stepTr p op)).1 = run p.1 (op :: ops)
    rw [ih (stepTr p op), stepTr_fst]
    rfl

lemma runTr_inv (ops : List Op) :
    ∀ p : EMState × List Nat,
      p.2.Pairwise (fun a b => a < b) →
      (∀ a ∈ p.2, a < p.1.nextId) →
      (∀ est ∈ p.1.entities, est.id ∈ p.2) →
      (ops.foldl stepTr p).2.Pairwise (fun a b => a < b) ∧
      (∀ a ∈ (ops.foldl stepTr p).2, a < (ops.foldl stepTr p).1.nextId) ∧
      (∀ est ∈ (ops.foldl stepTr p).1.entities,
        est.id ∈ (ops.foldl stepTr p).2) := by
  induction ops with
  | nil => exact fun p h1 h2 h3 => ⟨h1, h2, h3⟩
  | cons op ops ih =>
    intro p h1 h2 h3
    apply ih (stepTr p op)
    · cases op with
      | create =>
        show (p.2 ++ [p.1.nextId]).Pairwise (fun a b => a < b)
        rw [List.pairwise_append]
        refine ⟨h1, by simp, ?_⟩
        intro a ha b hb
        simp only [List.mem_singleton] at hb
        subst hb
        exact h2 a ha
      | addC eid K d => exact h1
      | removeC eid K => exact h1
      | tagT eid t => exact h1
      | untagT eid t => exact h1
      | destroyE eid => exact h1
    · cases op with
      | create =>
        intro a ha
        show a < p.1.nextId + 1
        rcases List.mem_append.1 ha with h | h
        · exact Nat.lt_succ_of_lt (h2 a h)
        · simp only [List.mem_singleton] at h
          subst h
          exact Nat.lt_succ_self _
      | addC eid K d =>
        exact fun a ha => Nat.lt_of_lt_of_le (h2 a ha) (step_nextId _)
      | removeC eid K =>
        exact fun a ha => Nat.lt_of_lt_of_le (h2 a ha) (step_nextId _)
      | tagT eid t =>
        exact fun a ha => Nat.lt_of_lt_of_le (h2 a ha) (step_nextId _)
      | untagT eid t =>
        exact fun a ha => Nat.lt_of_lt_of_le (h2 a ha) (step_nextId _)
      | destroyE eid =>
        exact fun a ha => Nat.lt_of_lt_of_le (h2 a ha) (step_nextId _)
    · cases op with
      | create =>
        intro est h'
        rcases List.mem_append.1 h' with h | h
        · exact List.mem_append.2 (Or.inl (h3 est h))
        · simp only [List.mem_singleton] at h
          subst h
          exact List.mem_append.2 (Or.inr (List.mem_singleton.2 rfl))
      | addC eid K d =>
        intro est h'
        rcases step_ids h' with hx | ⟨hop, -⟩
        · rcases List.mem_map.1 hx with ⟨e0, he0, hide⟩
          rw [← hide]
          exact h3 e0 he0
        · exact Op.noConfusion hop
      | removeC eid K =>
        intro est h'
        rcases step_ids h' with hx | ⟨hop, -⟩
        · rcases List.mem_map.1 hx with ⟨e0, he0, hide⟩
          rw [← hide]
          exact h3 e0 he0
        · exact Op.noConfusion hop
      | tagT eid t =>
        intro est h'
        rcases step_ids h' with hx | ⟨hop, -⟩
        · rcases List.mem_map.1 hx with ⟨e0, he0, hide⟩
          rw [← hide]
          exact h3 e0 he0
        · exact Op.noConfusion hop
      | untagT eid t =>
        intro est h'
        rcases step_ids h' with hx | ⟨hop, -⟩
        · rcases List.mem_map.1 hx with ⟨e0, he0, hide⟩
          rw [← hide]
          exact h3 e0 he0
        · exact Op.noConfusion hop
      | destroyE eid =>
        intro est h'
        rcases step_ids h' with hx | ⟨hop, -⟩
        · rcases List.mem_map.1 hx with ⟨e0, he0, hide⟩
          rw [← hide]
          exact h3 e0 he0
        · exact Op.noConfusion hop

/-- C9: over any operation sequence the ids handed out by `createEntity`
form a strictly increasing list — so every new entity's id is strictly
greater than every previously assigned id, ids are pairwise distinct, and
an id freed by destruction is never assigned again — and every registered
entity carries one of the assigned ids (an id fixed at creation). -/
theorem claim9_monotone_unique_ids (ops : List Op) :
    (runTr emInit ops).2.Pairwise (fun a b => a < b) ∧
    ∀ est ∈ (run emInit ops).entities, est.id ∈ (runTr emInit ops).2 := by
  have h := runTr_inv ops (emInit, []) (by simp) (by simp) (by simp [emInit])
  refine ⟨h.1, ?_⟩
  rw [← runTr_fst]
  exact h.2.2

/-- Operation run for the C9 witness: two creations, a destroy, another
creation (ids 0, 1, 2 assigned in order; id 0 never reused). -/
def wOps9 : List Op := [Op.create, Op.create, Op.destroyE 0, Op.create]

/-- The surviving first entity of the C9 witness run. -/
def wEst9 : EntityState :=
  { id := 1, active := true, comps := [], etags := [] }

/-- Witness for C9 at the concrete run: the assigned ids are strictly
increasing and entity 1's id was assigned at creation. -/
theorem claim9_monotone_unique_ids_witness :
    (runTr emInit wOps9).2.Pairwise (fun a b => a < b) ∧
    wEst9.id ∈ (runTr emInit wOps9).2 :=
  ⟨(claim9_monotone_unique_ids wOps9).1,
   (claim9_monotone_unique_ids wOps9).2 wEst9 (List.Mem.head _)⟩

/-! ## Claim C8: cloning -/

lemma find?_map_update {l : List EntityState} {i : Nat} {est : EntityState}
    {f : EntityState → EntityState}
    (hg : l.find? (fun e => e.id = i) = some est)
    (hf : ∀ e, (f e).id = e.id) :
    (l.map (fun e => if e.id = i then f e else e)).find? (fun e => e.id = i)
      = some (f est) := by
  induction l with
  | nil => exact absurd hg (by simp)
  | cons e l ih =>
    rw [List.map_cons]
    by_cases he : e.id = i
    · rw [List.find?_cons_of_pos _ (by simpa using he)] at hg
      have he2 : e = est := by injection hg
      subst he2
      rw [List.find?_cons_of_pos]
      · rw [if_pos he]
      · rw [if_pos he]
        simp [hf e, he]
    · rw [List.find?_cons_of_neg _ (by simpa using he)] at hg
      rw [List.find?_cons_of_neg]
      · exact ih hg
      · rw [if_neg he]
        simpa using he

lemma find?_map_update_other {l : List EntityState} {i j : Nat}
    {f : EntityState → EntityState} (hij : j ≠ i)
    (hf : ∀ e, (f e).id = e.id) :
    (l.map (fun e => if e.id = i then f e else e)).find? (fun e => e.id = j)
      = l.find? (fun e => e.id = j) := by
  induction l with
  | nil => rfl
  | cons e l ih =>
    rw [List.map_cons]
    by_cases he : e.id = j
    · rw [List.find?_cons_of_pos _ ?hpred]
      case hpred =>
        by_cases hei : e.id = i
        · rw [if_pos hei]
          simp [hf e, he]
        · rw [if_neg hei]
          simpa using he
      rw [List.find?_cons_of_pos _ (by simpa using he)]
      rw [if_neg (fun hx => hij (he.symm.trans hx))]
    · rw [List.find?_cons_of_neg _ ?hpred]
      case hpred =>
        by_cases hei : e.id = i
        · rw [if_pos hei]
          simpa [hf e] using he
        · rw [if_neg hei]
          simpa using he
      rw [List.find?_cons_of_neg _ (by simpa using he)]
      exact ih

lemma getEntity_updateEnt_self {s : EMState} {i : Nat} {est : EntityState}
    {f : EntityState → EntityState} (hg : getEntity s i = some est)
    (hf : ∀ e, (f e).id = e.id) :
    getEntity (updateEnt s i f) i = some (f est) :=
  find?_map_update hg hf

lemma getEntity_updateEnt_other {s : EMState} {i j : Nat}
    {f : EntityState → EntityState} (hij : j ≠ i)
    (hf : ∀ e, (f e).id = e.id) :
    getEntity (updateEnt s i f) j = getEntity s j :=
  find?_map_update_other hij hf

lemma getEntity_create_old {s : EMState} {j : Nat} {est : EntityState}
    (hg : getEntity s j = some est) :
    getEntity (createEntity s).1 j = some est := by
  show (s.entities ++
    [({ id := s.nextId, active := true, comps := [], etags := [] } :
      EntityState)]).find? (fun e => e.id = j) = some est
  rw [List.find?_append]
  unfold getEntity at hg
  rw [hg]
  rfl

lemma getEntity_create_new {s : EMState}
    (hall : ∀ e ∈ s.entities, e.id ≠ s.nextId) :
    getEntity (createEntity s).1 s.nextId =
      some { id := s.nextId, active := true, comps := [], etags := [] } := by
  show (s.entities ++
    [({ id := s.nextId, active := true, comps := [], etags := [] } :
      EntityState)]).find? (fun e => e.id = s.nextId) =
    some { id := s.nextId, active := true, comps := [], etags := [] }
  rw [List.find?_append,
    List.find?_eq_none.2 (fun e he => by simpa using hall e he)]
  rw [List.find?_cons_of_pos _ (by simp)]
  rfl

lemma mem_addMultiple {tm : TM} {ts : List String} {u : String} :
    u ∈ TM.addMultiple tm ts ↔ u ∈ tm ∨ u ∈ ts := by
  induction ts generalizing tm with
  | nil => simp [TM.addMultiple]
  | cons t ts ih =>
    show u ∈ TM.addMultiple (if t ∈ tm then tm else tm ++ [t]) ts ↔ _
    rw [ih]
    by_cases h : t ∈ tm
    · rw [if_pos h]
      simp only [List.mem_cons]
      constructor
      · rintro (h1 | h1)
        · exact Or.inl h1
        · exact Or.inr (Or.inr h1)
      · rintro (h1 | rfl | h1)
        · exact Or.inl h1
        · exact Or.inl h
        · exact Or.inr h1
    · rw [if_neg h]
      simp only [List.mem_append, List.mem_singleton, List.mem_cons]
      tauto

lemma CM.lookup_eq_none_of_not_mem {cm : CM} {n : String}
    (h : n ∉ CM.names cm) : CM.lookup cm n = none := by
  unfold CM.lookup
  rw [List.find?_eq_none.2]
  · rfl
  · intro p hp
    simp only [decide_eq_true_eq]
    exact fun he => h (he ▸ List.mem_map_of_mem _ hp)

/-- The component produced on the clone from an original component: same
class, back-reference to the clone, `enabled` and fields spread over a
freshly constructed instance. -/
def cloneComp (cid : Nat) (c : Comp) : Comp :=
  { cls := c.cls, entityRef := some cid
    enabled := match c.enabled with | some b => some b | none => some true
    fields := assignFields c.cls.defaultFields c.fields }

lemma lookup_map_clone {L : CM} {cid : Nat}
    (hkeys : ∀ p ∈ L, p.1 = p.2.cls.cname) (hnd : (CM.names L).Nodup) :
    ∀ p ∈ L,
      CM.lookup (L.map (fun q => (q.2.cls.cname, cloneComp cid q.2))) p.1 =
        some (cloneComp cid p.2) := by
  induction L with
  | nil =>
    intro p hp
    cases hp
  | cons q L ih =>
    intro p hp
    rw [List.map_cons, CM.lookup_cons]
    have hq := hkeys q (List.mem_cons_self _ _)
    have hnd2 := List.nodup_cons.1 hnd
    rcases List.mem_cons.1 hp with rfl | hp'
    · rw [if_pos hq.symm]
    · have hp1 : p.1 ∈ CM.names L := List.mem_map_of_mem _ hp'
      rw [if_neg ?hne]
      case hne =>
        intro he
        apply hnd2.1
        show q.1 ∈ CM.names L
        have he2 : q.2.cls.cname = p.1 := he
        rw [hq, he2]
        exact hp1
      exact ih (fun r hr => hkeys r (List.mem_cons_of_mem _ hr)) hnd2.2 p hp'

lemma getEntity_setComps_self {s : EMState} {i : Nat} {est : EntityState}
    {X : CM} (hg : getEntity s i = some est) :
    getEntity (updateEnt s i (fun e => { e with comps := X })) i =
      some { est with comps := X } :=
  find?_map_update hg (fun _ => rfl)

lemma getEntity_setComps_other {s : EMState} {i j : Nat} {X : CM}
    (hij : j ≠ i) :
    getEntity (updateEnt s i (fun e => { e with comps := X })) j =
      getEntity s j :=
  find?_map_update_other hij (fun _ => rfl)

lemma getEntity_addTags_self {s : EMState} {i : Nat} {est : EntityState}
    (ts : List String) (hg : getEntity s i = some est) :
    getEntity (updateEnt s i
        (fun e => { e with etags := TM.addMultiple e.etags ts })) i =
      some { est with etags := TM.addMultiple est.etags ts } :=
  find?_map_update hg (fun _ => rfl)

lemma getEntity_addTags_other {s : EMState} {i j : Nat} {ts : List String}
    (hij : j ≠ i) :
    getEntity (updateEnt s i
        (fun e => { e with etags := TM.addMultiple e.etags ts })) j =
      getEntity s j :=
  find?_map_update_other hij (fun _ => rfl)

lemma getEntity_setCompField_other {s : EMState} {i j : Nat}
    {cn k : String} {v : Int} (hij : j ≠ i) :
    getEntity (setCompField s i cn k v) j = getEntity s j :=
  find?_map_update_other hij (fun _ => rfl)

/-- The clone's component list produced from the original's. -/
def cloneImage (cid : Nat) (L : CM) : CM :=
  L.map (fun q => (q.2.cls.cname, cloneComp cid q.2))

/-- Effect of the component-copying loop of `Entity.clone`: folding
`cloned.add(constructor, {...component, entity: deleted})` over the
original's components appends the clone images to the clone's component
map and leaves every other entity untouched. -/
lemma clone_fold {L : CM} {s0 : EMState} {cid : Nat} {cl0 : EntityState}
    (hg0 : getEntity s0 cid = some cl0)
    (hkeys : ∀ p ∈ L, p.1 = p.2.cls.cname)
    (hfresh : ((cl0.comps ++ L).map (fun p => p.1)).Nodup) :
    getEntity
        (L.foldl (fun acc p => eAdd acc cid p.2.cls
          (some { enabled := p.2.enabled, fields := p.2.fields })) s0) cid =
      some { cl0 with comps := cl0.comps ++ cloneImage cid L } ∧
    (∀ j, j ≠ cid →
      getEntity
        (L.foldl (fun acc p => eAdd acc cid p.2.cls
          (some { enabled := p.2.enabled, fields := p.2.fields })) s0) j =
        getEntity s0 j) := by
  induction L generalizing s0 cl0 with
  | nil =>
    refine ⟨?_, fun j hj => rfl⟩
    simp only [List.foldl_nil, cloneImage, List.map_nil, List.append_nil]
    exact hg0
  | cons q L ih =>
    have hq := hkeys q (List.mem_cons_self _ _)
    have hqfresh : q.2.cls.cname ∉ CM.names cl0.comps := by
      rw [List.map_append, List.nodup_append] at hfresh
      intro hmem
      refine hfresh.2.2 hmem ?_
      rw [← hq]
      exact List.mem_map_of_mem _ (List.mem_cons_self _ _)
    have hlk : CM.lookup cl0.comps q.2.cls.cname = none :=
      CM.lookup_eq_none_of_not_mem hqfresh
    have hx : (CM.add cl0.comps cid q.2.cls
        (some { enabled := q.2.enabled, fields := q.2.fields })).2.1 =
        cl0.comps ++ [(q.2.cls.cname, cloneComp cid q.2)] := by
      unfold CM.add
      rw [hlk]
      rfl
    have hstep : getEntity (eAdd s0 cid q.2.cls
        (some { enabled := q.2.enabled, fields := q.2.fields })) cid =
        some { cl0 with
          comps := cl0.comps ++ [(q.2.cls.cname, cloneComp cid q.2)] } := by
      rw [eAdd_some hg0]
      exact (getEntity_setComps_self hg0).trans (by rw [hx])
    have hstep_other : ∀ j, j ≠ cid →
        getEntity (eAdd s0 cid q.2.cls
          (some { enabled := q.2.enabled, fields := q.2.fields })) j =
          getEntity s0 j := by
      intro j hj
      rw [eAdd_some hg0]
      exact getEntity_setComps_other hj
    have hfresh2 : ((({ cl0 with comps := cl0.comps ++
        [(q.2.cls.cname, cloneComp cid q.2)] } : EntityState).comps ++ L).map
          (fun p => p.1)).Nodup := by
      show (((cl0.comps ++ [(q.2.cls.cname, cloneComp cid q.2)]) ++ L).map
        (fun p => p.1)).Nodup
      rw [List.append_assoc, List.singleton_append]
      have heq : ((cl0.comps ++ (q.2.cls.cname, cloneComp cid q.2) :: L).map
          (fun p => p.1)) = ((cl0.comps ++ q :: L).map (fun p => p.1)) := by
        rw [List.map_append, List.map_append, List.map_cons, List.map_cons]
        rw [show ((q.2.cls.cname, cloneComp cid q.2) : String × Comp).1 =
          (fun p : String × Comp => p.1) q from hq.symm]
      rw [heq]
      exact hfresh
    have hrec := ih hstep
      (fun r hr => hkeys r (List.mem_cons_of_mem _ hr)) hfresh2
    constructor
    · show getEntity (L.foldl _ (eAdd s0 cid q.2.cls
        (some { enabled := q.2.enabled, fields := q.2.fields }))) cid = _
      rw [hrec.1]
      show some ({ cl0 with comps := (cl0.comps ++
        [(q.2.cls.cname, cloneComp cid q.2)]) ++ cloneImage cid L } :
          EntityState) = some ({ cl0 with
            comps := cl0.comps ++ cloneImage cid (q :: L) } : EntityState)
      rw [List.append_assoc, List.singleton_append]
      rfl
    · intro j hj
      show getEntity (L.foldl _ (eAdd s0 cid q.2.cls
        (some { enabled := q.2.enabled, fields := q.2.fields }))) j = _
      rw [hrec.2 j hj]
      exact hstep_other j hj

lemma names_cloneImage {cid : Nat} {L : CM}
    (hkeys : ∀ p ∈ L, p.1 = p.2.cls.cname) :
    CM.names (cloneImage cid L) = CM.names L := by
  unfold cloneImage CM.names
  rw [List.map_map]
  exact List.map_congr_left (fun p hp => (hkeys p hp).symm)

/-- C8: `Entity.clone` on a registered entity creates a new entity (id
`nextId`) that, for every component attached to the original, carries a
freshly constructed component of the same class whose `enabled` flag and
data fields equal the original's at clone time (the entity back-reference
pointing at the clone instead); the clone carries exactly the original's
tags; the original is untouched by the cloning; and mutating a primitive
field of a clone component afterwards leaves the original entity's whole
state unchanged.  The hypotheses record facts true of every entity built
through `ComponentManager.add`: map keys are class names and are distinct,
attached components have a set `enabled` flag, and every class default
field is present on the instance. -/
theorem claim8_clone (s : EMState) (eid : Nat) (est : EntityState)
    (hg : getEntity s eid = some est)
    (hall : ∀ e ∈ s.entities, e.id < s.nextId)
    (hkeys : ∀ p ∈ est.comps, p.1 = p.2.cls.cname)
    (hndn : (CM.names est.comps).Nodup)
    (hen : ∀ p ∈ est.comps, p.2.enabled.isSome = true)
    (hdef : ∀ p ∈ est.comps, ∀ kv ∈ p.2.cls.defaults,
      (p.2.fields kv.1).isSome = true) :
    ∃ s2 : EMState, cloneEntity s eid = some (s2, s.nextId) ∧
      ∃ cl : EntityState, getEntity s2 s.nextId = some cl ∧
        CM.names cl.comps = CM.names est.comps ∧
        (∀ p ∈ est.comps, ∃ c : Comp,
          CM.lookup cl.comps p.1 = some c ∧
          c.cls = p.2.cls ∧ c.entityRef = some s.nextId ∧
          c.enabled = p.2.enabled ∧ (∀ k, c.fields k = p.2.fields k)) ∧
        (∀ u, u ∈ cl.etags ↔ u ∈ est.etags) ∧
        getEntity s2 eid = some est ∧
        (∀ cn k v, getEntity (setCompField s2 s.nextId cn k v) eid =
          some est) := by
  obtain ⟨hm, hid⟩ := getEntity_mem hg
  have hlt : eid < s.nextId := hid ▸ hall est hm
  have hne : eid ≠ s.nextId := Nat.ne_of_lt hlt
  have hgC : getEntity (createEntity s).1 s.nextId =
      some { id := s.nextId, active := true, comps := [], etags := [] } :=
    getEntity_create_new (fun e he => Nat.ne_of_lt (hall e he))
  have hgCold : getEntity (createEntity s).1 eid = some est :=
    getEntity_create_old hg
  have hfresh : ((([] : CM) ++ est.comps).map (fun p => p.1)).Nodup := hndn
  have hfold := clone_fold hgC hkeys hfresh
  refine ⟨updateEnt (est.comps.foldl (fun acc p => eAdd acc s.nextId p.2.cls
      (some { enabled := p.2.enabled, fields := p.2.fields }))
      (createEntity s).1) s.nextId
      (fun e => { e with etags := TM.addMultiple e.etags est.etags }),
    ?_, ?_⟩
  · unfold cloneEntity
    rw [hg]
    rfl
  · have hcl2 := getEntity_addTags_self est.etags hfold.1
    refine ⟨_, hcl2, ?_, ?_, ?_, ?_, ?_⟩
    · show CM.names (cloneImage s.nextId est.comps) = CM.names est.comps
      exact names_cloneImage hkeys
    · intro p hp
      refine ⟨cloneComp s.nextId p.2, lookup_map_clone hkeys hndn p hp,
        rfl, rfl, ?_, ?_⟩
      · show (match p.2.enabled with
          | some b2 => some b2 | none => some true) = p.2.enabled
        have he := hen p hp
        cases hpe : p.2.enabled with
        | none =>
          rw [hpe] at he
          exact absurd he (by simp)
        | some b => rfl
      · intro k
        show assignFields p.2.cls.defaultFields p.2.fields k = p.2.fields k
        unfold assignFields
        cases hpk : p.2.fields k with
        | some v => rfl
        | none =>
          show p.2.cls.defaultFields k = none
          unfold CompClass.defaultFields
          cases hfk : p.2.cls.defaults.find? (fun kv => kv.1 = k) with
          | none => rfl
          | some kv =>
            have hk0 := List.find?_some hfk
            have hk1 : kv.1 = k := by simpa using hk0
            have hds := hdef p hp kv (List.mem_of_find?_eq_some hfk)
            rw [hk1, hpk] at hds
            exact absurd hds (by simp)
    · intro u
      exact (@mem_addMultiple [] est.etags u).trans (by simp)
    · rw [getEntity_addTags_other hne, hfold.2 eid hne]
      exact hgCold
    · intro cn k v
      rw [getEntity_setCompField_other hne, getEntity_addTags_other hne,
        hfold.2 eid hne]
      exact hgCold

/-- Witness for C8: clone the `Health`-and-`"enemy"` entity of C1's run. -/
theorem claim8_clone_witness :
    ∃ s2 : EMState,
      cloneEntity (run emInit wOps1) 0 =
        some (s2, (run emInit wOps1).nextId) ∧
      ∃ cl : EntityState,
        getEntity s2 (run emInit wOps1).nextId = some cl ∧
        CM.names cl.comps = CM.names wEst1.comps ∧
        (∀ p ∈ wEst1.comps, ∃ c : Comp,
          CM.lookup cl.comps p.1 = some c ∧
          c.cls = p.2.cls ∧ c.entityRef = some (run emInit wOps1).nextId ∧
          c.enabled = p.2.enabled ∧ (∀ k, c.fields k = p.2.fields k)) ∧
        (∀ u, u ∈ cl.etags ↔ u ∈ wEst1.etags) ∧
        getEntity s2 0 = some wEst1 ∧
        (∀ cn k v,
          getEntity (setCompField s2 (run emInit wOps1).nextId cn k v) 0 =
            some wEst1) :=
  claim8_clone (run emInit wOps1) 0 wEst1 rfl (by decide) (by decide)
    (by decide) (by decide) (by decide)
